import Mathlib

/-!
Verification development for the service-exposure reconciliation engine of
DevopsCare/exposecontroller.

The node-port strategy is embedded from src/exposestrategy/nodeport.go.
The ingress strategy implementation (ingress.go) and the shared strategy
helpers (exposestrategy.go) are not under src/ — only their test file is —
so those definitions are modelled from the specification, pinned to the
behaviour the test file demands; each such definition carries a
"Modelled from the spec" doc comment.

Kubernetes objects are modelled structurally: annotation and label maps are
association lists over String, the cluster is an explicit record of ingress
and service objects, and every cluster write performed by a strategy is
recorded in an explicit write log.
-/

set_option maxRecDepth 4000

namespace ExposeController

/-! ## Association lists (string-keyed maps) -/

/-- Lookup in a string-keyed association list (the model of a Go map). -/
def findL {α : Type} : List (String × α) → String → Option α
  | [], _ => none
  | p :: t, k => if p.1 = k then some p.2 else findL t k

/-- Set a key to a value, replacing the first binding or appending a new one. -/
def setL {α : Type} : List (String × α) → String → α → List (String × α)
  | [], k, v => [(k, v)]
  | p :: t, k, v => if p.1 = k then (k, v) :: t else p :: setL t k v

/-- Remove every binding of a key. -/
def eraseL {α : Type} : List (String × α) → String → List (String × α)
  | [], _ => []
  | p :: t, k => if p.1 = k then eraseL t k else p :: eraseL t k

abbrev Annos := List (String × String)

def lookupA (m : Annos) (k : String) : Option String := findL m k

def setA (m : Annos) (k v : String) : Annos := setL m k v

def eraseA (m : Annos) (k : String) : Annos := eraseL m k

/-! ## Character-level string utilities

All string manipulation is implemented by explicit recursion over the
character list of the string, so every definition is executable and
kernel-reducible. -/

def ofChars (l : List Char) : String := ⟨l⟩

def isWS (c : Char) : Bool := c = ' ' || c = '\t' || c = '\n' || c = '\r'

def trimChars (l : List Char) : List Char :=
  ((l.dropWhile isWS).reverse.dropWhile isWS).reverse

def trimStr (s : String) : String := ofChars (trimChars s.data)

def startsWithStr (s p : String) : Bool := p.data.isPrefixOf s.data

/-- Go strings.TrimPrefix: drop the prefix if present, else return unchanged. -/
def trimPref (s p : String) : String :=
  if p.data.isPrefixOf s.data then ofChars (s.data.drop p.data.length) else s

def splitCharAux (c : Char) : List Char → List Char → List String
  | [], acc => [ofChars acc.reverse]
  | x :: rest, acc =>
    if x = c then ofChars acc.reverse :: splitCharAux c rest []
    else splitCharAux c rest (x :: acc)

/-- Split a string on a separator character (Go strings.Split on one char). -/
def splitChar (c : Char) (s : String) : List String := splitCharAux c s.data []

def splitFirstAux (c : Char) : List Char → List Char → Option (String × String)
  | [], _ => none
  | x :: rest, acc =>
    if x = c then some (ofChars acc.reverse, ofChars rest)
    else splitFirstAux c rest (x :: acc)

/-- Split at the first occurrence of a character: (before, after). -/
def splitFirst (c : Char) (s : String) : Option (String × String) :=
  splitFirstAux c s.data []

/-- Non-overlapping left-to-right substring replacement (Go strings.Replace
with n = -1). The fuel argument only bounds the recursion; every step
consumes at least one character, so fuel equal to the input length is never
exhausted. -/
def replaceAux (pat repl : List Char) : Nat → List Char → List Char
  | _, [] => []
  | 0, l => l
  | fuel + 1, c :: rest =>
    if pat ≠ [] ∧ pat.isPrefixOf (c :: rest) = true then
      repl ++ replaceAux pat repl fuel ((c :: rest).drop pat.length)
    else
      c :: replaceAux pat repl fuel rest

def replaceChars (pat repl l : List Char) : List Char :=
  replaceAux pat repl l.length l

def replaceStr (s pat repl : String) : String :=
  ofChars (replaceChars pat.data repl.data s.data)

/-- Parse a decimal natural number; none on empty or non-digit input. -/
def parseNat? (l : List Char) : Option Nat :=
  if l = [] then none
  else if l.all Char.isDigit then
    some (l.foldl (fun n c => n * 10 + (c.toNat - 48)) 0)
  else none

def strToInt? (s : String) : Option Int := (parseNat? s.data).map Int.ofNat

def joinWith (sep : String) : List String → String
  | [] => ""
  | [x] => x
  | x :: xs => x ++ sep ++ joinWith sep xs

/-! ## Data model -/

structure OwnerReference where
  apiVersion : String := ""
  kind : String := ""
  name : String := ""
  uid : String := ""
deriving DecidableEq, Repr

structure ObjectMeta where
  ns : String := ""
  name : String := ""
  labels : Annos := []
  annotations : Annos := []
  ownerReferences : List OwnerReference := []
  resourceVersion : String := ""
  uid : String := ""
deriving DecidableEq, Repr

structure ServicePort where
  port : Int
  nodePort : Int := 0
deriving DecidableEq, Repr

structure Service where
  meta : ObjectMeta
  ports : List ServicePort := []
  svcType : String := "ClusterIP"
  externalIPs : List String := []
deriving DecidableEq, Repr

structure HTTPIngressPath where
  backendServiceName : String
  backendPortNumber : Int
  path : String
  pathType : String := "ImplementationSpecific"
deriving DecidableEq, Repr

structure IngressRule where
  host : String
  paths : List HTTPIngressPath
deriving DecidableEq, Repr

structure IngressTLS where
  hosts : List String
  secretName : String
deriving DecidableEq, Repr

structure Ingress where
  meta : ObjectMeta
  rules : List IngressRule := []
  tls : List IngressTLS := []
deriving DecidableEq, Repr

/-- The cluster state visible to a strategy: ingress and service objects. -/
structure Cluster where
  ingresses : List Ingress := []
  services : List Service := []
deriving DecidableEq, Repr

/-- One cluster API write issued by a strategy. -/
inductive WriteOp where
  | createIngress (ns name : String)
  | patchIngress (ns name : String)
  | deleteIngress (ns name : String)
  | patchService (ns name : String)
deriving DecidableEq, Repr

def isDeleteOp : WriteOp → Bool
  | .deleteIngress _ _ => true
  | _ => false

/-- Strategy configuration (the relevant fields of Config). -/
structure Config where
  exposer : String := "ingress"
  ns : String := ""
  domain : String := ""
  internalDomain : String := ""
  urlTemplate : String := ""
  namePref : String := ""
  ingressClass : String := ""
  tlsAcme : Bool := false
  tlsSecretName : String := ""
  tlsUseWildcard : Bool := false
  pathMode : String := ""
  nodeIP : String := ""
deriving DecidableEq, Repr

/-! ## Cluster primitives -/

def findIngList : List Ingress → String → String → Option Ingress
  | [], _, _ => none
  | i :: t, ns, n =>
    if i.meta.ns = ns ∧ i.meta.name = n then some i else findIngList t ns n

def findIngress (cl : Cluster) (ns n : String) : Option Ingress :=
  findIngList cl.ingresses ns n

def removeIngList (l : List Ingress) (ns n : String) : List Ingress :=
  l.filter (fun i => decide (¬(i.meta.ns = ns ∧ i.meta.name = n)))

def deleteIngressOp (cl : Cluster) (ns n : String) : Cluster :=
  { cl with ingresses := removeIngList cl.ingresses ns n }

def putIngress (cl : Cluster) (ing : Ingress) : Cluster :=
  { cl with ingresses := ing :: removeIngList cl.ingresses ing.meta.ns ing.meta.name }

def findSvcList : List Service → String → String → Option Service
  | [], _, _ => none
  | s :: t, ns, n =>
    if s.meta.ns = ns ∧ s.meta.name = n then some s else findSvcList t ns n

def findService (cl : Cluster) (ns n : String) : Option Service :=
  findSvcList cl.services ns n

def removeSvcList (l : List Service) (ns n : String) : List Service :=
  l.filter (fun s => decide (¬(s.meta.ns = ns ∧ s.meta.name = n)))

def putService (cl : Cluster) (svc : Service) : Cluster :=
  { cl with services := svc :: removeSvcList cl.services svc.meta.ns svc.meta.name }

/-! ## Annotation protocol constants

Modelled from the spec: the annotation vocabulary lives in the shared
strategy file (exposestrategy.go), which is not under src/; the key strings
are the ones the test file exercises symbolically. -/

def ExposeAnnotationKey : String := "fabric8.io/exposeUrl"

def ExposePortAnnotationKey : String := "fabric8.io/exposePort"

def ExposeHostNameAsAnnotationKey : String := "fabric8.io/exposeHostNameAs"

def IngressNameKey : String := "fabric8.io/ingress.name"

def HostNameKey : String := "fabric8.io/host.name"

def UseInternalDomainKey : String := "fabric8.io/use.internal.domain"

def IngressPathKey : String := "fabric8.io/ingress.path"

def PathModeKey : String := "fabric8.io/path.mode"

def IngressAnnotationsKey : String := "fabric8.io/ingress.annotations"

def PathModeUsePath : String := "path"

def providerLabelKey : String := "provider"

def providerLabelValue : String := "fabric8"

def generatedByKey : String := "fabric8.io/generated-by"

def generatedByValue : String := "exposecontroller"

def tlsAcmeKey : String := "kubernetes.io/tls-acme"

def ingressClassKey : String := "kubernetes.io/ingress.class"

def nginxIngressClassKey : String := "nginx.ingress.kubernetes.io/ingress.class"

/-- The "namespace/name" key of a service. -/
def svcKey (svc : Service) : String := svc.meta.ns ++ "/" ++ svc.meta.name

/-! ## Ownership classification and Sync -/

/-- The generator marker: provider label plus generated-by annotation. -/
def hasGeneratorMarker (ing : Ingress) : Bool :=
  decide (findL ing.meta.labels providerLabelKey = some providerLabelValue ∧
          findL ing.meta.annotations generatedByKey = some generatedByValue)

/-- The owner references of kind Service. -/
def serviceOwners (ing : Ingress) : List OwnerReference :=
  ing.meta.ownerReferences.filter (fun o => decide (o.kind = "Service"))

/-- Modelled from the spec: getIngressService of the missing ingress.go,
pinned by TestGetIngressService. Returns the owning service key and a
deletion flag: a resource without the generator marker is invisible
(empty key, no deletion); a marked resource with exactly one owner
reference of kind Service is owned by "namespace/ownerName"; any other
marked resource is ambiguous and flagged for deletion. -/
def getIngressService (ing : Ingress) : String × Bool :=
  if hasGeneratorMarker ing then
    match serviceOwners ing with
    | [o] => (ing.meta.ns ++ "/" ++ o.name, false)
    | _ => ("", true)
  else ("", false)

/-- The existing-resource index: service key to routing-resource names. -/
abbrev Index := List (String × List String)

def lookupIdx (idx : Index) (k : String) : List String := (findL idx k).getD []

def appendIdx (idx : Index) (k n : String) : Index :=
  match findL idx k with
  | some cur => setL idx k (cur ++ [n])
  | none => idx ++ [(k, [n])]

/-- Modelled from the spec: the Sync loop of the missing ingress.go, pinned
by TestIngressStrategy_Sync. It walks the listed ingresses once; each
resource flagged for deletion by the ownership classification is deleted
from the cluster, each owned resource's name is appended to the index entry
of its owning key, and everything else is left untouched. -/
def syncGo : List Ingress → Index → Cluster → List WriteOp →
    Index × Cluster × List WriteOp
  | [], idx, cl, ws => (idx, cl, ws)
  | ing :: rest, idx, cl, ws =>
    let r := getIngressService ing
    if r.2 then
      syncGo rest idx (deleteIngressOp cl ing.meta.ns ing.meta.name)
        (ws ++ [WriteOp.deleteIngress ing.meta.ns ing.meta.name])
    else if r.1 ≠ "" then
      syncGo rest (appendIdx idx r.1 ing.meta.name) cl ws
    else
      syncGo rest idx cl ws

/-- Sync rebuilds the index from scratch over the full ingress list. -/
def ingressSync (cl : Cluster) : Index × Cluster × List WriteOp :=
  syncGo cl.ingresses [] cl []

/-- Survival predicate: no listed, deletion-flagged resource has this
resource's namespace and name, so the sync pass never deletes it. -/
def SurvivesSync (l : List Ingress) (i : Ingress) : Prop :=
  ∀ d ∈ l, (getIngressService d).2 = true →
    ¬(d.meta.ns = i.meta.ns ∧ d.meta.name = i.meta.name)

/-! ## Embedded custom-annotations block parser -/

/-- Strip one pair of surrounding double quotes, if present. -/
def stripQuotes (s : String) : String :=
  match s.data with
  | [] => s
  | c :: rest =>
    if c = '"' ∧ rest ≠ [] ∧ rest.getLast? = some '"' then ofChars rest.dropLast
    else s

/-- Modelled from the spec: the embedded structured-text (key: value) block
of the custom-annotations service annotation, supporting comments, quoted
scalars and multi-line block scalars, pinned by
TestIngressStrategy_IngressAnnotations. A non-blank, non-comment line
without a colon is a hard parse error. The fuel argument only bounds the
recursion; every step consumes at least one line, so fuel equal to the
number of lines is never exhausted. -/
def parseLinesAux : Nat → List String → Except String Annos
  | _, [] => .ok []
  | 0, _ => .error "out of fuel"
  | fuel + 1, line :: rest =>
    let t := trimStr line
    if t = "" ∨ startsWithStr t "#" then parseLinesAux fuel rest
    else
      match splitFirst ':' t with
      | none => .error ("invalid annotations line: " ++ line)
      | some kv =>
        let key := trimStr kv.1
        let value := trimStr kv.2
        if value = "|-" then
          let block := rest.takeWhile (fun l => startsWithStr l " ")
          let blockValue := joinWith "\n" (block.map trimStr)
          match parseLinesAux fuel (rest.drop block.length) with
          | .error e => .error e
          | .ok tail => .ok ((key, blockValue) :: tail)
        else
          match parseLinesAux fuel rest with
          | .error e => .error e
          | .ok tail => .ok ((key, stripQuotes value) :: tail)

def parseLines (l : List String) : Except String Annos :=
  parseLinesAux l.length l

/-- Parse a whole custom-annotations block. -/
def parseCustomBlock (s : String) : Except String Annos :=
  parseLines (splitChar '\n' s)

/-! ## Desired-state builder -/

/-- The strongly-typed options read off a service at the start of Add:
service identity plus every recognized annotation-protocol value. -/
structure ExposeOpts where
  svcName : String
  svcNs : String
  svcUID : String
  release : Option String
  ports : List ServicePort
  nameOverride : Option String
  hostOverride : Option String
  useInternal : Option String
  pathOverride : Option String
  pathModeOverride : Option String
  portOverride : Option String
  hostNameAs : Option String
  customBlock : Option String
deriving DecidableEq, Repr

/-- Modelled from the spec: parse the string-typed annotation protocol into
a typed options record at the start of Add. -/
def readOpts (svc : Service) : ExposeOpts :=
  { svcName := svc.meta.name
    svcNs := svc.meta.ns
    svcUID := svc.meta.uid
    release := findL svc.meta.labels "release"
    ports := svc.ports
    nameOverride := lookupA svc.meta.annotations IngressNameKey
    hostOverride := lookupA svc.meta.annotations HostNameKey
    useInternal := lookupA svc.meta.annotations UseInternalDomainKey
    pathOverride := lookupA svc.meta.annotations IngressPathKey
    pathModeOverride := lookupA svc.meta.annotations PathModeKey
    portOverride := lookupA svc.meta.annotations ExposePortAnnotationKey
    hostNameAs := lookupA svc.meta.annotations ExposeHostNameAsAnnotationKey
    customBlock := lookupA svc.meta.annotations IngressAnnotationsKey }

/-- The helm-release-trimmed application name: the service name minus a
"release-" prefix taken from the release label. -/
def appNameOf (o : ExposeOpts) : String :=
  match o.release with
  | some r => if r ≠ "" then trimPref o.svcName (r ++ "-") else o.svcName
  | none => o.svcName

/-- Modelled from the spec: backend-port selection — the explicit override
must name one of the declared ports, otherwise the first declared port is
used; no declared port at all is a configuration error. -/
def choosePort (o : ExposeOpts) : Except String Int :=
  match o.ports with
  | [] => .error ("service " ++ o.svcNs ++ "/" ++ o.svcName ++ " has no ports")
  | p :: _ =>
    match o.portOverride with
    | none => .ok p.port
    | some s =>
      match strToInt? s with
      | none => .error ("invalid port override " ++ s)
      | some n =>
        if o.ports.any (fun q => decide (q.port = n)) then .ok n
        else .error ("port override " ++ s ++ " not found among declared ports")

def tplService : String := "\x7b\x7b.Service\x7d\x7d"

def tplNamespace : String := "\x7b\x7b.Namespace\x7d\x7d"

def tplDomain : String := "\x7b\x7b.Domain\x7d\x7d"

/-- Expand the URL template, supporting named and positional placeholders. -/
def expandTemplate (tmpl svcPiece ns dom : String) : String :=
  replaceStr (replaceStr (replaceStr (replaceStr (replaceStr (replaceStr
    tmpl tplService svcPiece) tplNamespace ns) tplDomain dom)
    "%[1]s" svcPiece) "%[2]s" ns) "%[3]s" dom

/-- The domain used for a service: internal when the flag annotation says so. -/
def domainOfOpts (cfg : Config) (o : ExposeOpts) : String :=
  if o.useInternal = some "true" then cfg.internalDomain else cfg.domain

/-- The ingress-class name effectively used: the configured class, else
"nginx" when path mode is in effect, else none. -/
def classOf (cfg : Config) (effMode : String) : String :=
  if cfg.ingressClass ≠ "" then cfg.ingressClass
  else if effMode = PathModeUsePath then "nginx" else ""

/-- The engine-generated annotations before the custom block is merged:
the generated-by marker, the ingress-class pair under both keys when a
class is in effect, and the TLS-ACME marker when ACME is enabled. -/
def baseAnnosOf (cfg : Config) (effMode : String) : Annos :=
  let cls := classOf cfg effMode
  let base0 : Annos := [(generatedByKey, generatedByValue)]
  let base1 :=
    if cls ≠ "" then base0 ++ [(ingressClassKey, cls), (nginxIngressClassKey, cls)]
    else base0
  if cfg.tlsAcme then base1 ++ [(tlsAcmeKey, "true")] else base1

/-- Merge the parsed custom block over the engine's annotations, the custom
value winning per key. -/
def mergeCustom (custom base : Annos) : Annos :=
  custom.foldl (fun m p => setL m p.1 p.2) base

/-- The fully-built desired routing state for one service. -/
structure BuildResult where
  name : String
  host : String
  path : String
  scheme : String
  url : String
  ing : Ingress
deriving DecidableEq, Repr

/-- The effective path mode: the service's path-mode annotation override,
else the configured default. -/
def effModeOf (cfg : Config) (o : ExposeOpts) : String :=
  match o.pathModeOverride with
  | some m => m
  | none => cfg.pathMode

/-- The routing-resource name: the explicit override, else the configured
prefix joined to the release-trimmed application name, else that name. -/
def ingNameOf (cfg : Config) (o : ExposeOpts) : String :=
  match o.nameOverride with
  | some n => n
  | none =>
    if cfg.namePref ≠ "" then cfg.namePref ++ "-" ++ appNameOf o
    else appNameOf o

/-- The name piece fed to the URL template: the host override, else the
resource-name override, else the application name. -/
def hostPieceOf (o : ExposeOpts) : String :=
  match o.hostOverride with
  | some h => h
  | none =>
    match o.nameOverride with
    | some n => n
    | none => appNameOf o

/-- The generated host: the bare domain in path mode, else the expanded
URL template. -/
def hostOf (cfg : Config) (o : ExposeOpts) : String :=
  if effModeOf cfg o = PathModeUsePath then domainOfOpts cfg o
  else expandTemplate cfg.urlTemplate (hostPieceOf o) o.svcNs (domainOfOpts cfg o)

/-- The generated path: "/namespace/segment/" in path mode (segment is the
path override when non-empty, else the application name), else the path
override with a guaranteed leading slash, else empty. -/
def pathOf (cfg : Config) (o : ExposeOpts) : String :=
  if effModeOf cfg o = PathModeUsePath then
    "/" ++ o.svcNs ++ "/" ++
      (match o.pathOverride with
       | some p => if p ≠ "" then p else appNameOf o
       | none => appNameOf o) ++ "/"
  else
    match o.pathOverride with
    | none => ""
    | some p => if startsWithStr p "/" then p else "/" ++ p

/-- The URL scheme: https exactly when TLS is enabled. -/
def schemeOf (cfg : Config) : String :=
  if cfg.tlsAcme ∨ cfg.tlsSecretName ≠ "" then "https" else "http"

/-- The TLS secret name: the explicit override, else "tls-" + serviceName. -/
def tlsSecretOf (cfg : Config) (o : ExposeOpts) : String :=
  if cfg.tlsSecretName ≠ "" then cfg.tlsSecretName else "tls-" ++ o.svcName

/-- The TLS block: present exactly when TLS is enabled; its sole host entry
is "*." + domain under the wildcard flag, else the literal host. -/
def tlsListOf (cfg : Config) (o : ExposeOpts) : List IngressTLS :=
  if cfg.tlsAcme ∨ cfg.tlsSecretName ≠ "" then
    [{ hosts := [if cfg.tlsUseWildcard then "*." ++ domainOfOpts cfg o
                 else hostOf cfg o],
       secretName := tlsSecretOf cfg o }]
  else []

/-- The desired routing state assembled from the selected port and the
parsed custom block. -/
def buildMk (cfg : Config) (o : ExposeOpts) (portNum : Int) (custom : Annos) :
    BuildResult :=
  { name := ingNameOf cfg o
    host := hostOf cfg o
    path := pathOf cfg o
    scheme := schemeOf cfg
    url := schemeOf cfg ++ "://" ++ hostOf cfg o ++ pathOf cfg o
    ing :=
      { meta :=
          { ns := o.svcNs
            name := ingNameOf cfg o
            labels := [(providerLabelKey, providerLabelValue)]
            annotations := setL (mergeCustom custom (baseAnnosOf cfg (effModeOf cfg o)))
              generatedByKey generatedByValue
            ownerReferences :=
              [{ apiVersion := "v1", kind := "Service",
                 name := o.svcName, uid := o.svcUID }]
            resourceVersion := ""
            uid := "" }
        rules :=
          [{ host := hostOf cfg o
             paths :=
               [{ backendServiceName := o.svcName
                  backendPortNumber := portNum
                  path := pathOf cfg o }] }]
        tls := tlsListOf cfg o } }

/-- The custom-annotations block parse step of the builder. -/
def parseCustomOf (o : ExposeOpts) : Except String Annos :=
  match o.customBlock with
  | none => .ok []
  | some b => parseCustomBlock b

/-- Modelled from the spec: the desired-state builder of the missing
ingress.go (name, host, path, backend port, labels, annotations, TLS block,
published URL), pinned by the expected objects of the test file. -/
def buildCore (cfg : Config) (o : ExposeOpts) : Except String BuildResult :=
  match choosePort o with
  | .error e => .error e
  | .ok portNum =>
    match parseCustomOf o with
    | .error e => .error e
    | .ok custom => .ok (buildMk cfg o portNum custom)

/-- Build the desired routing resource and URL for a service. -/
def buildIngress (cfg : Config) (svc : Service) : Except String BuildResult :=
  buildCore cfg (readOpts svc)

/-! ## Add (diff & patch engine) and Clean -/

/-- Equality of the mutable fields of an ingress (labels, annotations,
owner references, rules, TLS): the patch between two such objects is empty
exactly when they agree here. Identity fields (resource version, uid) are
excluded. -/
def mutableEq (a b : Ingress) : Bool :=
  decide (a.meta.labels = b.meta.labels ∧
          a.meta.annotations = b.meta.annotations ∧
          a.meta.ownerReferences = b.meta.ownerReferences ∧
          a.rules = b.rules ∧ a.tls = b.tls)

/-- The desired object carrying over the observed object's identity fields
(resource version and uid), as a patch application preserves them. -/
def withIdentity (obs des : Ingress) : Ingress :=
  { des with meta := { des.meta with
      resourceVersion := obs.meta.resourceVersion
      uid := obs.meta.uid } }

/-- Modelled from the spec: the guarded stale-resource deletion loop shared
by Add (rename cleanup) and Clean of the missing ingress.go, pinned by
TestIngressStrategy_Add and TestIngressStrategy_Clean: an indexed name is
deleted from the cluster only when the resource still exists and its
ownership classification either flags it for deletion or attributes it to
this service's key; resources without the generator marker or owned by a
different service are left alone. -/
def stalePass (key ns : String) : List String → Cluster → Cluster × List WriteOp
  | [], cl => (cl, [])
  | n :: rest, cl =>
    match findIngress cl ns n with
    | none => stalePass key ns rest cl
    | some ing =>
      let r := getIngressService ing
      if r.2 ∨ r.1 = key then
        let res := stalePass key ns rest (deleteIngressOp cl ns n)
        (res.1, WriteOp.deleteIngress ns n :: res.2)
      else stalePass key ns rest cl

/-- The published annotation map: the URL under the canonical key, and the
host under the key named by the exposeHostNameAs annotation when present. -/
def pubAnnos (svc : Service) (r : BuildResult) : Annos :=
  let a1 := setA svc.meta.annotations ExposeAnnotationKey r.url
  match lookupA svc.meta.annotations ExposeHostNameAsAnnotationKey with
  | some k => setA a1 k r.host
  | none => a1

/-- Modelled from the spec: publishing the computed URL onto the service's
annotations — the canonical published-URL key always, and the computed host
additionally under the key named by the exposeHostNameAs annotation when
that is present (pinned by TestIngressStrategy_IngressAnnotations). -/
def publishService (svc : Service) (r : BuildResult) : Service :=
  { svc with meta := { svc.meta with annotations := pubAnnos svc r } }

/-- Create the desired ingress when absent, else patch it only when the
mutable fields differ, preserving the observed identity fields. -/
def upsertDesired (cl : Cluster) (ns : String) (r : BuildResult) :
    Cluster × List WriteOp :=
  match findIngress cl ns r.name with
  | none => (putIngress cl r.ing, [WriteOp.createIngress ns r.name])
  | some obs =>
    if mutableEq obs r.ing then (cl, [])
    else (putIngress cl (withIdentity obs r.ing), [WriteOp.patchIngress ns r.name])

/-- Patch the service's annotations with the published URL, skipping the
write when the patch would be empty. -/
def publishStep (cl : Cluster) (svc : Service) (r : BuildResult) :
    Cluster × List WriteOp :=
  let clone := publishService svc r
  if clone = svc then (cl, [])
  else (putService cl clone, [WriteOp.patchService svc.meta.ns svc.meta.name])

/-- The deterministic core of Add after a successful build. -/
def ingressAddCore (ex : Index) (cl : Cluster) (svc : Service) (r : BuildResult) :
    Index × Cluster × List WriteOp :=
  let key := svcKey svc
  let stale := (lookupIdx ex key).filter (fun n => decide (n ≠ r.name))
  let s1 := stalePass key svc.meta.ns stale cl
  let s2 := upsertDesired s1.1 svc.meta.ns r
  let s3 := publishStep s2.1 svc r
  (setL ex key [r.name], s3.1, s1.2 ++ s2.2 ++ s3.2)

/-- Modelled from the spec: Add of the missing ingress.go — build the
desired state, reap stale indexed names under the ownership guard, create
or patch the desired resource, record exactly the desired name in the
index, and publish the URL on the service with empty-patch skipping. -/
def ingressAdd (cfg : Config) (ex : Index) (cl : Cluster) (svc : Service) :
    Except String (Index × Cluster × List WriteOp) :=
  match buildIngress cfg svc with
  | .error e => .error e
  | .ok r => .ok (ingressAddCore ex cl svc r)

/-- Modelled from the spec: removeServiceAnnotation of the missing
exposestrategy.go — remove the published-URL annotation, reporting whether
it was present (none when there was nothing to remove). -/
def removeExposeUrl? (svc : Service) : Option Service :=
  if (lookupA svc.meta.annotations ExposeAnnotationKey).isSome then
    some { svc with meta := { svc.meta with
             annotations := eraseA svc.meta.annotations ExposeAnnotationKey } }
  else none

/-- Patch the service to drop the published-URL annotation; no write when
the annotation was absent. -/
def cleanPublish (cl : Cluster) (svc : Service) : Cluster × List WriteOp :=
  match removeExposeUrl? svc with
  | none => (cl, [])
  | some clone => (putService cl clone,
                   [WriteOp.patchService svc.meta.ns svc.meta.name])

/-- Modelled from the spec: Clean of the missing ingress.go, pinned by
TestIngressStrategy_Clean — delete the indexed resources under the
ownership guard, drop the index key entirely, and remove the published-URL
annotation from the service with empty-patch skipping. -/
def ingressClean (ex : Index) (cl : Cluster) (svc : Service) :
    Index × Cluster × List WriteOp :=
  let key := svcKey svc
  let s1 := stalePass key svc.meta.ns (lookupIdx ex key) cl
  let s2 := cleanPublish s1.1 svc
  (eraseL ex key, s2.1, s1.2 ++ s2.2)

/-! ## Node-port strategy (src/exposestrategy/nodeport.go) -/

/-- The node-port strategy's in-memory state: the discovered node IP and
the todo set of services awaiting a node port. -/
structure NodePortState where
  nodeIP : String
  todo : List String := []
deriving DecidableEq, Repr

def eraseTodo (s : NodePortState) (k : String) : NodePortState :=
  { s with todo := s.todo.filter (fun x => decide (x ≠ k)) }

def addTodo (s : NodePortState) (k : String) : NodePortState :=
  if k ∈ s.todo then s else { s with todo := s.todo ++ [k] }

/-- Modelled from the spec: addServiceAnnotation of the missing
exposestrategy.go as used by the node-port strategy — set the published
annotation to the given host name (possibly empty while pending). -/
def setSvcAnno (svc : Service) (hostName : String) : Service :=
  { svc with meta := { svc.meta with
      annotations := setA svc.meta.annotations ExposeAnnotationKey hostName } }

/-- net.JoinHostPort for the plain-IPv4 case used here. -/
def joinHostPort (host port : String) : String := host ++ ":" ++ port

/-- NodePortStrategy.Sync: reset the todo set. -/
def nodeportSync (s : NodePortState) : NodePortState := { s with todo := [] }

/-- NodePortStrategy.HasSynced: complete when the todo set is empty. -/
def nodeportHasSynced (s : NodePortState) : Bool := decide (s.todo = [])

/-- NodePortStrategy.Add from src/exposestrategy/nodeport.go: drop the key
from todo, reject zero or multiple ports before any cluster call, switch
the clone to NodePort type, publish host:port (or an empty value while the
node port is unallocated, re-entering todo), and patch the service only
when the patch is non-empty. The final component carries the returned
error, if any. -/
def nodeportAdd (s : NodePortState) (cl : Cluster) (svc : Service) :
    NodePortState × Cluster × List WriteOp × Option String :=
  let s0 := eraseTodo s (svcKey svc)
  if svc.ports.length = 0 then
    (s0, cl, [], some ("service " ++ svcKey svc ++ " has no ports specified"))
  else if 1 < svc.ports.length then
    (s0, cl, [], some ("service " ++ svcKey svc ++ " has multiple ports specified"))
  else
    let base := { svc with svcType := "NodePort", externalIPs := [] }
    let np := (svc.ports.headD { port := 0 }).nodePort
    let s1 := if 0 < np then s0 else addTodo s0 (svcKey svc)
    let clone :=
      if 0 < np then setSvcAnno base (joinHostPort s.nodeIP (toString np))
      else setSvcAnno base ""
    if clone = svc then (s1, cl, [], none)
    else (s1, putService cl clone,
          [WriteOp.patchService svc.meta.ns svc.meta.name], none)

/-- NodePortStrategy.Clean from src/exposestrategy/nodeport.go: drop the
key from todo; if the published annotation is absent, stop without touching
the service; otherwise restore the ClusterIP type and patch. -/
def nodeportClean (s : NodePortState) (cl : Cluster) (svc : Service) :
    NodePortState × Cluster × List WriteOp :=
  let s0 := eraseTodo s (svcKey svc)
  match removeExposeUrl? svc with
  | none => (s0, cl, [])
  | some c =>
    let clone := { c with svcType := "ClusterIP" }
    if clone = svc then (s0, cl, [])
    else (s0, putService cl clone,
          [WriteOp.patchService svc.meta.ns svc.meta.name])

/-- NodePortStrategy.Delete: drop the key from todo. -/
def nodeportDelete (s : NodePortState) (svc : Service) : NodePortState :=
  eraseTodo s (svcKey svc)

/-! ## Derived notions used in the statements -/

deriving instance DecidableEq for Except

/-- The (namespace, name) identity of an ingress object. -/
def ingKey (i : Ingress) : String × String := (i.meta.ns, i.meta.name)

/-- The service annotation keys the desired-state builder reads. -/
def builderInputKeys : List String :=
  [IngressNameKey, HostNameKey, UseInternalDomainKey, IngressPathKey,
   PathModeKey, ExposePortAnnotationKey, ExposeHostNameAsAnnotationKey,
   IngressAnnotationsKey]

/-! ## Concrete fixtures

These mirror the objects built by the repository's test file and serve as
the concrete inputs of witnesses and counterexamples. -/

def ownSvc (n : String) : OwnerReference :=
  { apiVersion := "v1", kind := "Service", name := n }

def provLbl : Annos := [(providerLabelKey, providerLabelValue)]

def genByAnno (v : String) : Annos := [(generatedByKey, v)]

def mkIng (ns nm : String) (lbl ann : Annos) (owners : List OwnerReference)
    (rv : String) : Ingress :=
  { meta :=
      { ns := ns
        name := nm
        labels := lbl
        annotations := ann
        ownerReferences := owners
        resourceVersion := rv } }

/-- The cluster of TestIngressStrategy_Sync. -/
def syncFixCl : Cluster :=
  { ingresses :=
      [ mkIng "main" "ingress1" provLbl (genByAnno "exposecontroller") [ownSvc "service1"] "1"
      , mkIng "main" "ingress2" provLbl (genByAnno "not-exposecontroller") [ownSvc "service2"] "2"
      , mkIng "main" "ingress3" provLbl (genByAnno "exposecontroller") [] "3"
      , mkIng "other" "ingress4" provLbl (genByAnno "not-exposecontroller") [] "4"
      , mkIng "main" "ingress5" provLbl (genByAnno "exposecontroller") [ownSvc "service1"] "5"
      , mkIng "main" "ingress6" provLbl (genByAnno "exposecontroller") [ownSvc "service2"] "6" ] }

/-- The ambiguous resource of the Sync fixture (marker, zero owners). -/
def syncFixAmb : Ingress :=
  mkIng "main" "ingress3" provLbl (genByAnno "exposecontroller") [] "3"

/-- The service of TestIngressStrategy_Add. -/
def addFixSvc : Service :=
  { meta :=
      { ns := "main"
        name := "source"
        annotations := [("fabric8.io/expose", "true")]
        resourceVersion := "1" }
    ports := [{ port := 1234 }] }

def addFixCfg : Config :=
  { ns := "main", domain := "my-domain.com", urlTemplate := "%[1]s.%[2]s.%[3]s" }

def addFixIng1 : Ingress :=
  mkIng "main" "ingress1" provLbl (genByAnno "exposecontroller") [ownSvc "source"] "2"

def addFixCl : Cluster :=
  { ingresses :=
      [ addFixIng1
      , mkIng "main" "ingress2" provLbl (genByAnno "not-exposecontroller") [ownSvc "source"] "3"
      , mkIng "main" "ingress3" provLbl (genByAnno "exposecontroller") [ownSvc "other"] "4"
      , mkIng "main" "ingress4" provLbl (genByAnno "exposecontroller") [ownSvc "other", ownSvc "another"] "5"
      , mkIng "main" "source" provLbl (genByAnno "exposecontroller") [ownSvc "source"] "6" ]
    services := [addFixSvc] }

def addFixEx : Index :=
  [("main/source", ["ingress1", "ingress2", "ingress3", "ingress4", "source"])]

def addFixBuild : BuildResult :=
  match buildIngress addFixCfg addFixSvc with
  | .ok r => r
  | .error _ => { name := "", host := "", path := "", scheme := "", url := "", ing := { meta := {} } }

def addFixRes : Index × Cluster × List WriteOp :=
  ingressAddCore addFixEx addFixCl addFixSvc addFixBuild

/-- The cluster, index and services of TestIngressStrategy_Clean. -/
def cleanFixCl : Cluster :=
  { ingresses :=
      [ mkIng "ns1" "ingress1" provLbl (genByAnno "exposecontroller") [ownSvc "svc1"] ""
      , mkIng "ns1" "ingress2" provLbl (genByAnno "exposecontroller") [ownSvc "other"] ""
      , mkIng "ns1" "ingress3" provLbl (genByAnno "exposecontroller") [] ""
      , mkIng "ns1" "ingress4" provLbl (genByAnno "not-exposecontroller") [ownSvc "svc1"] ""
      , mkIng "ns1" "ingress5" provLbl (genByAnno "exposecontroller") [ownSvc "svc1"] ""
      , mkIng "ns1" "ingress6" provLbl (genByAnno "exposecontroller") [ownSvc "svc1"] ""
      , mkIng "ns2" "ingress7" provLbl (genByAnno "exposecontroller") [ownSvc "svc2"] "" ]
    services :=
      [ { meta :=
            { ns := "ns1"
              name := "svc1"
              annotations := [(ExposeAnnotationKey, "url"), ("other", "other")] } } ] }

def cleanFixEx : Index :=
  [ ("ns1/svc1", ["ingress1", "ingress2", "ingress3", "ingress4", "ingress5"])
  , ("ns2/svc2", ["ingress7"])
  , ("ns3/svc3", ["other"]) ]

def cleanFixSvc1 : Service :=
  { meta := { ns := "ns1", name := "svc1", annotations := [(ExposeAnnotationKey, "url")] } }

def cleanFixSvc2 : Service := { meta := { ns := "ns2", name := "svc2" } }

def cleanFixIng1 : Ingress :=
  mkIng "ns1" "ingress1" provLbl (genByAnno "exposecontroller") [ownSvc "svc1"] ""

def cleanFixRes : Index × Cluster × List WriteOp :=
  ingressClean cleanFixEx cleanFixCl cleanFixSvc1

/-- The service and configuration of TestIngressStrategy_update. -/
def updFixSvc : Service :=
  { meta :=
      { ns := "ns"
        name := "svc"
        annotations := [("fabric8.io/expose", "true")] }
    ports := [{ port := 1234 }, { port := 5678 }] }

def updFixCfg : Config :=
  { ns := "main"
    domain := "my-domain.com"
    urlTemplate := "\x7b\x7b.Service\x7d\x7d.\x7b\x7b.Namespace\x7d\x7d.\x7b\x7b.Domain\x7d\x7d" }

def updFixCl : Cluster := { services := [updFixSvc] }

def updFixBuild : BuildResult :=
  match buildIngress updFixCfg updFixSvc with
  | .ok r => r
  | .error _ => { name := "", host := "", path := "", scheme := "", url := "", ing := { meta := {} } }

def updFixRes : Index × Cluster × List WriteOp :=
  ingressAddCore [] updFixCl updFixSvc updFixBuild

/-- The service of TestIngressStrategy_IngressTLSAcme. -/
def acmeFixSvc : Service :=
  { meta :=
      { ns := "main"
        name := "my-service"
        annotations := [("fabric8.io/expose", "true")]
        resourceVersion := "1"
        uid := "my-service-uid" }
    ports := [{ port := 123 }, { port := 456 }, { port := 789 }] }

def acmeFixCfg : Config :=
  { ns := "main"
    namePref := "prefix"
    domain := "my-domain.com"
    internalDomain := "my-internal-domain.com"
    urlTemplate := "\x7b\x7b.Service\x7d\x7d-\x7b\x7b.Namespace\x7d\x7d.\x7b\x7b.Domain\x7d\x7d"
    tlsAcme := true
    ingressClass := "myIngressClass" }

def acmeFixBuild : BuildResult :=
  match buildIngress acmeFixCfg acmeFixSvc with
  | .ok r => r
  | .error _ => { name := "", host := "", path := "", scheme := "", url := "", ing := { meta := {} } }

/-- The service of TestIngressStrategy_IngressTLSSecretName (wildcard TLS,
path mode, release label "my"). -/
def tlsFixSvc : Service :=
  { meta :=
      { ns := "main"
        name := "my-service"
        labels := [("release", "my")]
        annotations := [("fabric8.io/expose", "true")]
        resourceVersion := "1"
        uid := "my-service-uid" }
    ports := [{ port := 123 }, { port := 456 }, { port := 789 }] }

def tlsFixCfg : Config :=
  { ns := "main"
    domain := "my-domain.com"
    internalDomain := "my-internal-domain.com"
    urlTemplate := "\x7b\x7b.Service\x7d\x7d.\x7b\x7b.Namespace\x7d\x7d.\x7b\x7b.Domain\x7d\x7d"
    tlsSecretName := "my-tls-secret"
    tlsUseWildcard := true
    pathMode := PathModeUsePath }

def tlsFixBuild : BuildResult :=
  match buildIngress tlsFixCfg tlsFixSvc with
  | .ok r => r
  | .error _ => { name := "", host := "", path := "", scheme := "", url := "", ing := { meta := {} } }

/-- The custom-annotations block of TestIngressStrategy_IngressAnnotations. -/
def annoFixBlock : String :=
  "\nsentence:  sentence with spaces\n  # ignored comment\nquoted:    \" quoted sentence \"\nmultiline: |-\n  multi line\n  sentence\n\nfabric8.io/generated-by: other\n\nkubernetes.io/ingress.class: other\n"

def annoFixSvc : Service :=
  { meta :=
      { ns := "main"
        name := "my-service"
        annotations :=
          [ ("fabric8.io/expose", "true")
          , (IngressNameKey, "my-ingress")
          , (HostNameKey, "my-hostname")
          , (UseInternalDomainKey, "true")
          , (IngressPathKey, "my/path")
          , (PathModeKey, "other")
          , (ExposePortAnnotationKey, "456")
          , (ExposeHostNameAsAnnotationKey, "my-exposed-hostname")
          , (IngressAnnotationsKey, annoFixBlock) ]
        resourceVersion := "1"
        uid := "my-service-uid" }
    ports := [{ port := 123 }, { port := 456 }, { port := 789 }] }

def annoFixCfg : Config :=
  { ns := "main"
    domain := "my-domain.com"
    internalDomain := "my-internal-domain.com"
    urlTemplate := "\x7b\x7b.Namespace\x7d\x7d.\x7b\x7b.Service\x7d\x7d.\x7b\x7b.Domain\x7d\x7d"
    pathMode := PathModeUsePath
    ingressClass := "my-class" }

def annoFixBuild : BuildResult :=
  match buildIngress annoFixCfg annoFixSvc with
  | .ok r => r
  | .error _ => { name := "", host := "", path := "", scheme := "", url := "", ing := { meta := {} } }

/-- Path-mode scenario of the spec: domain example.com, namespace main,
service svc with one port, path mode, no overrides. -/
def pathFixCfg : Config :=
  { ns := "main", domain := "example.com", pathMode := PathModeUsePath }

def pathFixSvc : Service :=
  { meta := { ns := "main", name := "svc" }
    ports := [{ port := 1234 }] }

def pathFixCl : Cluster := { services := [pathFixSvc] }

/-- A self-referential service: its exposeHostNameAs annotation names the
host-override key read by the builder. -/
def collideFixSvc : Service :=
  { meta :=
      { ns := "n"
        name := "s"
        annotations := [(ExposeHostNameAsAnnotationKey, HostNameKey)] }
    ports := [{ port := 80 }] }

def collideFixCfg : Config :=
  { domain := "d", urlTemplate := "\x7b\x7b.Service\x7d\x7d.\x7b\x7b.Domain\x7d\x7d" }

def collideFixBuild : BuildResult :=
  match buildIngress collideFixCfg collideFixSvc with
  | .ok r => r
  | .error _ => { name := "", host := "", path := "", scheme := "", url := "", ing := { meta := {} } }

def collideFixFirst : Index × Cluster × List WriteOp :=
  ingressAddCore [] { services := [collideFixSvc] } collideFixSvc collideFixBuild

def collideFixSecond : Except String (Index × Cluster × List WriteOp) :=
  ingressAdd collideFixCfg collideFixFirst.1 collideFixFirst.2.1
    (publishService collideFixSvc collideFixBuild)

/-- A zero-port service for the node-port strategy. -/
def npFixSvc : Service := { meta := { ns := "default", name := "web" } }

def npFixState : NodePortState := { nodeIP := "10.0.0.1" }

/-! # Lemmas -/

/-! ## Association lists -/

theorem findL_setL_self {α : Type} (m : List (String × α)) (k : String) (v : α) :
    findL (setL m k v) k = some v := by
  induction m with
  | nil => simp [setL, findL]
  | cons p t ih =>
    by_cases h : p.1 = k <;> simp [setL, findL, h, ih]

theorem findL_setL_ne {α : Type} (m : List (String × α)) (k k' : String) (v : α)
    (h : k' ≠ k) : findL (setL m k v) k' = findL m k' := by
  induction m with
  | nil => simp [setL, findL, Ne.symm h]
  | cons p t ih =>
    by_cases hp : p.1 = k
    · subst hp
      simp [setL, findL, Ne.symm h, h]
    · simp only [setL, if_neg hp, findL]
      by_cases hp' : p.1 = k' <;> simp [hp', ih]

theorem setL_setL_self {α : Type} (m : List (String × α)) (k : String) (v : α) :
    setL (setL m k v) k v = setL m k v := by
  induction m with
  | nil => simp [setL]
  | cons p t ih =>
    by_cases h : p.1 = k <;> simp [setL, h, ih]

theorem setL_eq_of_findL {α : Type} (m : List (String × α)) (k : String) (v : α)
    (h : findL m k = some v) : setL m k v = m := by
  induction m with
  | nil => simp [findL] at h
  | cons p t ih =>
    obtain ⟨p1, p2⟩ := p
    by_cases hp : p1 = k
    · subst hp
      have h2 : p2 = v := by simpa [findL] using h
      subst h2
      simp [setL]
    · simp only [findL, if_neg hp] at h
      simp [setL, hp, ih h]

theorem findL_eraseL_self {α : Type} (m : List (String × α)) (k : String) :
    findL (eraseL m k) k = none := by
  induction m with
  | nil => simp [eraseL, findL]
  | cons p t ih =>
    by_cases h : p.1 = k <;> simp [eraseL, findL, h, ih]

theorem eraseL_keys {α : Type} (m : List (String × α)) (k : String) :
    ∀ p ∈ eraseL m k, p.1 ≠ k := by
  induction m with
  | nil => simp [eraseL]
  | cons q t ih =>
    by_cases h : q.1 = k
    · simpa [eraseL, h] using ih
    · simp only [eraseL, if_neg h, List.mem_cons]
      rintro p (rfl | hp)
      · exact h
      · exact ih p hp

theorem findL_append_of_none {α : Type} (m l : List (String × α)) (k : String)
    (h : findL m k = none) : findL (m ++ l) k = findL l k := by
  induction m with
  | nil => simp [findL]
  | cons p t ih =>
    by_cases hp : p.1 = k
    · simp [findL, hp] at h
    · simp only [findL, if_neg hp] at h
      simpa [findL, hp] using ih h

theorem findL_append_of_some {α : Type} (m l : List (String × α)) (k : String)
    (v : α) (h : findL m k = some v) : findL (m ++ l) k = some v := by
  induction m with
  | nil => simp [findL] at h
  | cons p t ih =>
    by_cases hp : p.1 = k
    · simp only [findL, if_pos hp] at h
      simp [findL, hp, h]
    · simp only [findL, if_neg hp] at h
      simpa [findL, hp] using ih h

theorem lookupIdx_setL_self (idx : Index) (k : String) (v : List String) :
    lookupIdx (setL idx k v) k = v := by
  simp [lookupIdx, findL_setL_self]

theorem lookupIdx_appendIdx_self (idx : Index) (k n : String) :
    lookupIdx (appendIdx idx k n) k = lookupIdx idx k ++ [n] := by
  unfold appendIdx
  cases h : findL idx k with
  | some cur => simp [lookupIdx, findL_setL_self, h]
  | none => simp [lookupIdx, findL_append_of_none idx _ k h, findL, h]

theorem lookupIdx_appendIdx_ne (idx : Index) (k k' n : String) (h : k' ≠ k) :
    lookupIdx (appendIdx idx k n) k' = lookupIdx idx k' := by
  unfold appendIdx
  cases hf : findL idx k with
  | some cur => simp [lookupIdx, findL_setL_ne _ _ _ _ h]
  | none =>
    cases hf' : findL idx k' with
    | some cur' => simp [lookupIdx, findL_append_of_some idx _ k' cur' hf', hf']
    | none => simp [lookupIdx, findL_append_of_none idx _ k' hf', findL, Ne.symm h, hf']

/-! ## Cluster primitives -/

theorem findIngList_eq_none_iff (l : List Ingress) (ns n : String) :
    findIngList l ns n = none ↔ ∀ i ∈ l, ¬(i.meta.ns = ns ∧ i.meta.name = n) := by
  induction l with
  | nil => simp [findIngList]
  | cons i t ih =>
    by_cases h : i.meta.ns = ns ∧ i.meta.name = n <;>
      simp [findIngList, h, ih] <;> tauto

theorem findIngList_mem (l : List Ingress) (ns n : String) (i : Ingress)
    (h : findIngList l ns n = some i) :
    i ∈ l ∧ i.meta.ns = ns ∧ i.meta.name = n := by
  induction l with
  | nil => simp [findIngList] at h
  | cons j t ih =>
    by_cases hj : j.meta.ns = ns ∧ j.meta.name = n
    · simp only [findIngList, if_pos hj, Option.some.injEq] at h
      subst h
      exact ⟨List.mem_cons_self _ _, hj⟩
    · simp only [findIngList, if_neg hj] at h
      obtain ⟨hm, hk⟩ := ih h
      exact ⟨List.mem_cons_of_mem _ hm, hk⟩

theorem mem_removeIngList (l : List Ingress) (ns n : String) (i : Ingress) :
    i ∈ removeIngList l ns n ↔ i ∈ l ∧ ¬(i.meta.ns = ns ∧ i.meta.name = n) := by
  simp [removeIngList, List.mem_filter]
  tauto

theorem findIngList_remove_self (l : List Ingress) (ns n : String) :
    findIngList (removeIngList l ns n) ns n = none := by
  rw [findIngList_eq_none_iff]
  intro i hi
  exact ((mem_removeIngList l ns n i).mp hi).2

theorem removeIngList_cons (i : Ingress) (t : List Ingress) (ns n : String) :
    removeIngList (i :: t) ns n =
      if i.meta.ns = ns ∧ i.meta.name = n then removeIngList t ns n
      else i :: removeIngList t ns n := by
  by_cases h : i.meta.ns = ns ∧ i.meta.name = n <;>
    simp [removeIngList, List.filter_cons, h]

theorem findIngList_remove_ne (l : List Ingress) (ns n ns' n' : String)
    (h : ¬(ns' = ns ∧ n' = n)) :
    findIngList (removeIngList l ns n) ns' n' = findIngList l ns' n' := by
  induction l with
  | nil => simp [removeIngList, findIngList]
  | cons i t ih =>
    rw [removeIngList_cons]
    by_cases hk : i.meta.ns = ns ∧ i.meta.name = n
    · rw [if_pos hk]
      have hne : ¬(i.meta.ns = ns' ∧ i.meta.name = n') := by
        rintro ⟨h1, h2⟩
        exact h ⟨h1.symm.trans hk.1, h2.symm.trans hk.2⟩
      simp [findIngList, hne, ih]
    · rw [if_neg hk]
      simp only [findIngList]
      by_cases hq : i.meta.ns = ns' ∧ i.meta.name = n' <;> simp [hq, ih]

theorem findIngress_putIngress_self (cl : Cluster) (ing : Ingress) :
    findIngress (putIngress cl ing) ing.meta.ns ing.meta.name = some ing := by
  simp [findIngress, putIngress, findIngList]

theorem findIngress_putIngress_ne (cl : Cluster) (ing : Ingress) (ns n : String)
    (h : ¬(ns = ing.meta.ns ∧ n = ing.meta.name)) :
    findIngress (putIngress cl ing) ns n = findIngress cl ns n := by
  have hne : ¬(ing.meta.ns = ns ∧ ing.meta.name = n) := by
    rintro ⟨h1, h2⟩
    exact h ⟨h1.symm, h2.symm⟩
  simp only [findIngress, putIngress, findIngList, if_neg hne]
  exact findIngList_remove_ne _ _ _ _ _ h

theorem putIngress_services (cl : Cluster) (ing : Ingress) :
    (putIngress cl ing).services = cl.services := rfl

theorem putService_ingresses (cl : Cluster) (svc : Service) :
    (putService cl svc).ingresses = cl.ingresses := rfl

theorem deleteIngressOp_services (cl : Cluster) (ns n : String) :
    (deleteIngressOp cl ns n).services = cl.services := rfl

theorem findSvcList_put_self (cl : Cluster) (svc : Service) :
    findService (putService cl svc) svc.meta.ns svc.meta.name = some svc := by
  simp [findService, putService, findSvcList]

theorem findIngress_ingresses_congr (cl cl' : Cluster) (ns n : String)
    (h : cl.ingresses = cl'.ingresses) :
    findIngress cl ns n = findIngress cl' ns n := by
  simp [findIngress, h]

/-! ## Sync characterization -/

theorem syncGo_cluster_mem (l : List Ingress) :
    ∀ (idx : Index) (cl : Cluster) (ws : List WriteOp) (i : Ingress),
      i ∈ (syncGo l idx cl ws).2.1.ingresses ↔
        i ∈ cl.ingresses ∧ SurvivesSync l i := by
  induction l with
  | nil =>
    intro idx cl ws i
    simp [syncGo, SurvivesSync]
  | cons d rest ih =>
    intro idx cl ws i
    by_cases hdel : (getIngressService d).2 = true
    · simp only [syncGo, hdel, if_true]
      rw [ih]
      rw [show (deleteIngressOp cl d.meta.ns d.meta.name).ingresses =
            removeIngList cl.ingresses d.meta.ns d.meta.name from rfl]
      rw [mem_removeIngList]
      constructor
      · rintro ⟨⟨hm, hne⟩, hs⟩
        refine ⟨hm, ?_⟩
        intro e he hedel
        rcases List.mem_cons.mp he with rfl | he'
        · intro hmatch
          exact hne ⟨hmatch.1.symm, hmatch.2.symm⟩
        · exact hs e he' hedel
      · rintro ⟨hm, hs⟩
        refine ⟨⟨hm, ?_⟩, ?_⟩
        · intro hmatch
          exact hs d (List.mem_cons_self _ _) hdel ⟨hmatch.1.symm, hmatch.2.symm⟩
        · intro e he hedel
          exact hs e (List.mem_cons_of_mem _ he) hedel
    · have hdel' : (getIngressService d).2 = false := by
        simpa using hdel
      have hstep : ∀ idx', (syncGo (d :: rest) idx' cl ws).2.1 =
          (syncGo rest (if (getIngressService d).1 ≠ "" then
            appendIdx idx' (getIngressService d).1 d.meta.name else idx') cl ws).2.1 := by
        intro idx'
        simp only [syncGo, hdel', if_false, Bool.false_eq_true]
        by_cases hk : (getIngressService d).1 ≠ "" <;> simp [hk]
      rw [hstep]
      rw [ih]
      constructor
      · rintro ⟨hm, hs⟩
        refine ⟨hm, ?_⟩
        intro e he hedel
        rcases List.mem_cons.mp he with rfl | he'
        · rw [hedel] at hdel'
          cases hdel'
        · exact hs e he' hedel
      · rintro ⟨hm, hs⟩
        exact ⟨hm, fun e he hedel => hs e (List.mem_cons_of_mem _ he) hedel⟩

theorem syncGo_index_mem (l : List Ingress) :
    ∀ (idx : Index) (cl : Cluster) (ws : List WriteOp) (k n : String),
      n ∈ lookupIdx (syncGo l idx cl ws).1 k ↔
        n ∈ lookupIdx idx k ∨
        ∃ i ∈ l, getIngressService i = (k, false) ∧ k ≠ "" ∧ i.meta.name = n := by
  induction l with
  | nil =>
    intro idx cl ws k n
    simp [syncGo]
  | cons d rest ih =>
    intro idx cl ws k n
    by_cases hdel : (getIngressService d).2 = true
    · simp only [syncGo, hdel, if_true]
      rw [ih]
      constructor
      · rintro (hin | ⟨i, hi, hgi, hk, hn⟩)
        · exact Or.inl hin
        · exact Or.inr ⟨i, List.mem_cons_of_mem _ hi, hgi, hk, hn⟩
      · rintro (hin | ⟨i, hi, hgi, hk, hn⟩)
        · exact Or.inl hin
        · rcases List.mem_cons.mp hi with rfl | hi'
          · rw [hgi] at hdel
            cases hdel
          · exact Or.inr ⟨i, hi', hgi, hk, hn⟩
    · have hdel' : (getIngressService d).2 = false := by simpa using hdel
      by_cases hk0 : (getIngressService d).1 = ""
      · have hstep : syncGo (d :: rest) idx cl ws = syncGo rest idx cl ws := by
          simp [syncGo, hdel', hk0]
        rw [hstep, ih]
        constructor
        · rintro (hin | ⟨i, hi, hgi, hk, hn⟩)
          · exact Or.inl hin
          · exact Or.inr ⟨i, List.mem_cons_of_mem _ hi, hgi, hk, hn⟩
        · rintro (hin | ⟨i, hi, hgi, hk, hn⟩)
          · exact Or.inl hin
          · rcases List.mem_cons.mp hi with rfl | hi'
            · rw [hgi] at hk0
              simp only at hk0
              exact absurd hk0 hk
            · exact Or.inr ⟨i, hi', hgi, hk, hn⟩
      · have hstep : syncGo (d :: rest) idx cl ws =
            syncGo rest (appendIdx idx (getIngressService d).1 d.meta.name) cl ws := by
          simp [syncGo, hdel', hk0]
        rw [hstep, ih]
        have hgid : getIngressService d = ((getIngressService d).1, false) := by
          rw [← hdel']
        by_cases hkk : k = (getIngressService d).1
        · subst hkk
          rw [lookupIdx_appendIdx_self]
          simp only [List.mem_append, List.mem_singleton]
          constructor
          · rintro ((hin | hn) | ⟨i, hi, hgi, hk, hn⟩)
            · exact Or.inl hin
            · exact Or.inr ⟨d, List.mem_cons_self _ _, hgid, hk0, hn.symm⟩
            · exact Or.inr ⟨i, List.mem_cons_of_mem _ hi, hgi, hk, hn⟩
          · rintro (hin | ⟨i, hi, hgi, hk, hn⟩)
            · exact Or.inl (Or.inl hin)
            · rcases List.mem_cons.mp hi with rfl | hi'
              · exact Or.inl (Or.inr hn.symm)
              · exact Or.inr ⟨i, hi', hgi, hk, hn⟩
        · rw [lookupIdx_appendIdx_ne _ _ _ _ hkk]
          constructor
          · rintro (hin | ⟨i, hi, hgi, hk, hn⟩)
            · exact Or.inl hin
            · exact Or.inr ⟨i, List.mem_cons_of_mem _ hi, hgi, hk, hn⟩
          · rintro (hin | ⟨i, hi, hgi, hk, hn⟩)
            · exact Or.inl hin
            · rcases List.mem_cons.mp hi with rfl | hi'
              · rw [hgi] at hkk
                simp at hkk
              · exact Or.inr ⟨i, hi', hgi, hk, hn⟩

/-- The index built by Sync contains a name under a key exactly when some
listed resource is classified as owned by that key and has that name. -/
theorem ingressSync_index_mem (cl : Cluster) (k n : String) :
    n ∈ lookupIdx (ingressSync cl).1 k ↔
      ∃ i ∈ cl.ingresses, getIngressService i = (k, false) ∧ k ≠ "" ∧
        i.meta.name = n := by
  rw [ingressSync, syncGo_index_mem]
  simp [lookupIdx, findL]

/-- A resource survives Sync exactly when no deletion-flagged listed
resource shares its namespace and name. -/
theorem ingressSync_cluster_mem (cl : Cluster) (i : Ingress) :
    i ∈ (ingressSync cl).2.1.ingresses ↔
      i ∈ cl.ingresses ∧ SurvivesSync cl.ingresses i := by
  rw [ingressSync, syncGo_cluster_mem]

/-! ## The guarded stale-deletion pass -/

theorem stalePass_services (key ns : String) (l : List String) :
    ∀ cl : Cluster, (stalePass key ns l cl).1.services = cl.services := by
  induction l with
  | nil => intro cl; rfl
  | cons m rest ih =>
    intro cl
    simp only [stalePass]
    cases hf : findIngress cl ns m with
    | none => exact ih cl
    | some ing =>
      by_cases hg : (getIngressService ing).2 = true ∨ (getIngressService ing).1 = key
      · simp only [if_pos hg]
        rw [ih]
        rfl
      · simp only [if_neg hg]
        exact ih cl

theorem stalePass_writes (key ns : String) (l : List String) :
    ∀ (cl : Cluster) (w : WriteOp), w ∈ (stalePass key ns l cl).2 →
      isDeleteOp w = true := by
  induction l with
  | nil => intro cl w hw; simp [stalePass] at hw
  | cons m rest ih =>
    intro cl w hw
    cases hf : findIngress cl ns m with
    | none =>
      simp only [stalePass, hf] at hw
      exact ih cl w hw
    | some ing =>
      simp only [stalePass, hf] at hw
      by_cases hg : (getIngressService ing).2 = true ∨ (getIngressService ing).1 = key
      · rw [if_pos hg] at hw
        rcases List.mem_cons.mp hw with rfl | hw'
        · rfl
        · exact ih _ w hw'
      · rw [if_neg hg] at hw
        exact ih cl w hw

theorem stalePass_mem (key ns : String) (l : List String) :
    ∀ (cl : Cluster) (i : Ingress),
      i ∈ (stalePass key ns l cl).1.ingresses → i ∈ cl.ingresses := by
  induction l with
  | nil => intro cl i hi; exact hi
  | cons m rest ih =>
    intro cl i hi
    cases hf : findIngress cl ns m with
    | none =>
      simp only [stalePass, hf] at hi
      exact ih cl i hi
    | some ing =>
      simp only [stalePass, hf] at hi
      by_cases hg : (getIngressService ing).2 = true ∨ (getIngressService ing).1 = key
      · rw [if_pos hg] at hi
        have := ih _ i hi
        exact ((mem_removeIngList _ _ _ _).mp this).1
      · rw [if_neg hg] at hi
        exact ih cl i hi

theorem stalePass_keeps (key ns : String) (l : List String) :
    ∀ (cl : Cluster) (i : Ingress), i ∈ cl.ingresses →
      (i.meta.ns ≠ ns ∨ i.meta.name ∉ l) →
      i ∈ (stalePass key ns l cl).1.ingresses := by
  induction l with
  | nil => intro cl i hi _; exact hi
  | cons m rest ih =>
    intro cl i hi hcond
    have hcond' : i.meta.ns ≠ ns ∨ i.meta.name ∉ rest := by
      rcases hcond with h | h
      · exact Or.inl h
      · exact Or.inr (fun hm => h (List.mem_cons_of_mem _ hm))
    cases hf : findIngress cl ns m with
    | none =>
      simp only [stalePass, hf]
      exact ih cl i hi hcond'
    | some ing =>
      simp only [stalePass, hf]
      by_cases hg : (getIngressService ing).2 = true ∨ (getIngressService ing).1 = key
      · rw [if_pos hg]
        refine ih _ i ?_ hcond'
        rw [show (deleteIngressOp cl ns m).ingresses =
              removeIngList cl.ingresses ns m from rfl]
        rw [mem_removeIngList]
        refine ⟨hi, ?_⟩
        rintro ⟨h1, h2⟩
        rcases hcond with h | h
        · exact h h1
        · exact h (h2 ▸ List.mem_cons_self _ _)
      · rw [if_neg hg]
        exact ih cl i hi hcond'

theorem stalePass_find_none (key ns : String) (l : List String) :
    ∀ (cl : Cluster) (n : String), findIngress cl ns n = none →
      findIngress (stalePass key ns l cl).1 ns n = none := by
  intro cl n h
  rw [findIngress, findIngList_eq_none_iff]
  intro i hi
  have hmem := stalePass_mem key ns l cl i hi
  rw [findIngress, findIngList_eq_none_iff] at h
  exact h i hmem

theorem stalePass_find_other (key ns : String) (l : List String) :
    ∀ (cl : Cluster) (ns' n' : String), ns' ≠ ns ∨ n' ∉ l →
      findIngress (stalePass key ns l cl).1 ns' n' = findIngress cl ns' n' := by
  induction l with
  | nil => intro cl ns' n' _; rfl
  | cons m rest ih =>
    intro cl ns' n' hcond
    have hcond' : ns' ≠ ns ∨ n' ∉ rest := by
      rcases hcond with h | h
      · exact Or.inl h
      · exact Or.inr (fun hm => h (List.mem_cons_of_mem _ hm))
    cases hf : findIngress cl ns m with
    | none =>
      simp only [stalePass, hf]
      exact ih cl ns' n' hcond'
    | some ing =>
      simp only [stalePass, hf]
      by_cases hg : (getIngressService ing).2 = true ∨ (getIngressService ing).1 = key
      · rw [if_pos hg]
        rw [ih _ ns' n' hcond']
        have hne : ¬(ns' = ns ∧ n' = m) := by
          rintro ⟨h1, h2⟩
          rcases hcond with h | h
          · exact h h1
          · exact h (h2 ▸ List.mem_cons_self _ _)
        exact findIngList_remove_ne cl.ingresses ns m ns' n' hne
      · rw [if_neg hg]
        exact ih cl ns' n' hcond'

theorem stalePass_deletes (key ns : String) (l : List String) :
    ∀ (cl : Cluster) (n : String) (ing : Ingress), n ∈ l →
      findIngress cl ns n = some ing →
      ((getIngressService ing).2 = true ∨ (getIngressService ing).1 = key) →
      findIngress (stalePass key ns l cl).1 ns n = none := by
  induction l with
  | nil => intro cl n ing hn; simp at hn
  | cons m rest ih =>
    intro cl n ing hn hfind hguard
    by_cases hnm : n = m
    · subst hnm
      cases hf : findIngress cl ns n with
      | none => rw [hf] at hfind; cases hfind
      | some ing2 =>
        rw [hf] at hfind
        injection hfind with hfind
        subst hfind
        simp only [stalePass, hf, if_pos hguard]
        apply stalePass_find_none
        exact findIngList_remove_self cl.ingresses ns n
    · have hn' : n ∈ rest := by
        rcases List.mem_cons.mp hn with h | h
        · exact absurd h hnm
        · exact h
      cases hf : findIngress cl ns m with
      | none =>
        simp only [stalePass, hf]
        exact ih cl n ing hn' hfind hguard
      | some ing2 =>
        simp only [stalePass, hf]
        by_cases hg : (getIngressService ing2).2 = true ∨ (getIngressService ing2).1 = key
        · rw [if_pos hg]
          refine ih _ n ing hn' ?_ hguard
          rw [show findIngress (deleteIngressOp cl ns m) ns n =
                findIngList (removeIngList cl.ingresses ns m) ns n from rfl]
          rw [findIngList_remove_ne cl.ingresses ns m ns n
                (by rintro ⟨_, h2⟩; exact hnm h2)]
          exact hfind
        · rw [if_neg hg]
          exact ih cl n ing hn' hfind hguard

/-! ## Upsert and publish steps -/

theorem mutableEq_refl (i : Ingress) : mutableEq i i = true := by
  simp [mutableEq]

theorem mutableEq_withIdentity (obs des : Ingress) :
    mutableEq (withIdentity obs des) des = true := by
  simp [mutableEq, withIdentity]

theorem withIdentity_ns (obs des : Ingress) :
    (withIdentity obs des).meta.ns = des.meta.ns := rfl

theorem withIdentity_name (obs des : Ingress) :
    (withIdentity obs des).meta.name = des.meta.name := rfl

theorem upsertDesired_services (cl : Cluster) (ns : String) (r : BuildResult) :
    (upsertDesired cl ns r).1.services = cl.services := by
  unfold upsertDesired
  cases hf : findIngress cl ns r.name with
  | none => rfl
  | some obs =>
    by_cases hm : mutableEq obs r.ing = true <;> simp [hm, putIngress_services]

theorem upsertDesired_find (cl : Cluster) (ns : String) (r : BuildResult)
    (hns : r.ing.meta.ns = ns) (hname : r.ing.meta.name = r.name) :
    ∃ i, findIngress (upsertDesired cl ns r).1 ns r.name = some i ∧
      mutableEq i r.ing = true := by
  unfold upsertDesired
  cases hf : findIngress cl ns r.name with
  | none =>
    refine ⟨r.ing, ?_, mutableEq_refl _⟩
    have := findIngress_putIngress_self cl r.ing
    rw [hns, hname] at this
    exact this
  | some obs =>
    by_cases hm : mutableEq obs r.ing = true
    · exact ⟨obs, by simp [hm, hf], hm⟩
    · refine ⟨withIdentity obs r.ing, ?_, mutableEq_withIdentity obs r.ing⟩
      simp only [hm, if_false, Bool.false_eq_true]
      have := findIngress_putIngress_self cl (withIdentity obs r.ing)
      rw [withIdentity_ns, withIdentity_name, hns, hname] at this
      exact this

theorem upsertDesired_find_other (cl : Cluster) (ns : String) (r : BuildResult)
    (hns : r.ing.meta.ns = ns) (hname : r.ing.meta.name = r.name)
    (ns' n' : String) (h : ¬(ns' = ns ∧ n' = r.name)) :
    findIngress (upsertDesired cl ns r).1 ns' n' = findIngress cl ns' n' := by
  unfold upsertDesired
  cases hf : findIngress cl ns r.name with
  | none =>
    apply findIngress_putIngress_ne
    rw [hns, hname]
    exact h
  | some obs =>
    by_cases hm : mutableEq obs r.ing = true
    · simp [hm]
    · simp only [hm, if_false, Bool.false_eq_true]
      apply findIngress_putIngress_ne
      rw [withIdentity_ns, withIdentity_name, hns, hname]
      exact h

theorem publishStep_ingresses (cl : Cluster) (svc : Service) (r : BuildResult) :
    (publishStep cl svc r).1.ingresses = cl.ingresses := by
  unfold publishStep
  by_cases h : publishService svc r = svc <;> simp [h, putService_ingresses]

theorem cleanPublish_ingresses (cl : Cluster) (svc : Service) :
    (cleanPublish cl svc).1.ingresses = cl.ingresses := by
  unfold cleanPublish
  cases h : removeExposeUrl? svc with
  | none => rfl
  | some clone => simp [putService_ingresses]

/-! ## Builder facts -/

theorem buildCore_inv (cfg : Config) (o : ExposeOpts) (r : BuildResult)
    (h : buildCore cfg o = .ok r) :
    ∃ portNum custom, choosePort o = .ok portNum ∧
      parseCustomOf o = .ok custom ∧ r = buildMk cfg o portNum custom := by
  unfold buildCore at h
  cases hp : choosePort o with
  | error e => rw [hp] at h; cases h
  | ok portNum =>
    rw [hp] at h
    cases hc : parseCustomOf o with
    | error e => rw [hc] at h; cases h
    | ok custom =>
      rw [hc] at h
      injection h with h
      exact ⟨portNum, custom, rfl, rfl, h.symm⟩

theorem buildIngress_inv (cfg : Config) (svc : Service) (r : BuildResult)
    (h : buildIngress cfg svc = .ok r) :
    ∃ portNum custom, choosePort (readOpts svc) = .ok portNum ∧
      parseCustomOf (readOpts svc) = .ok custom ∧
      r = buildMk cfg (readOpts svc) portNum custom :=
  buildCore_inv cfg (readOpts svc) r h

theorem buildMk_ns (cfg : Config) (o : ExposeOpts) (p : Int) (c : Annos) :
    (buildMk cfg o p c).ing.meta.ns = o.svcNs := rfl

theorem buildMk_ing_name (cfg : Config) (o : ExposeOpts) (p : Int) (c : Annos) :
    (buildMk cfg o p c).ing.meta.name = (buildMk cfg o p c).name := rfl

theorem buildMk_generatedBy (cfg : Config) (o : ExposeOpts) (p : Int) (c : Annos) :
    findL (buildMk cfg o p c).ing.meta.annotations generatedByKey =
      some generatedByValue := by
  simp only [buildMk]
  exact findL_setL_self _ _ _

theorem readOpts_svcNs (svc : Service) : (readOpts svc).svcNs = svc.meta.ns := rfl

/-- The builder reads no annotation outside builderInputKeys: its input
record only depends on the service's identity, labels, ports and the
builder input keys. -/
theorem readOpts_annotations_congr (svc svc' : Service)
    (hname : svc'.meta.name = svc.meta.name) (hns : svc'.meta.ns = svc.meta.ns)
    (huid : svc'.meta.uid = svc.meta.uid)
    (hlabels : svc'.meta.labels = svc.meta.labels)
    (hports : svc'.ports = svc.ports)
    (hannos : ∀ k ∈ builderInputKeys,
      lookupA svc'.meta.annotations k = lookupA svc.meta.annotations k) :
    readOpts svc' = readOpts svc := by
  have h1 := hannos IngressNameKey (by simp [builderInputKeys])
  have h2 := hannos HostNameKey (by simp [builderInputKeys])
  have h3 := hannos UseInternalDomainKey (by simp [builderInputKeys])
  have h4 := hannos IngressPathKey (by simp [builderInputKeys])
  have h5 := hannos PathModeKey (by simp [builderInputKeys])
  have h6 := hannos ExposePortAnnotationKey (by simp [builderInputKeys])
  have h7 := hannos ExposeHostNameAsAnnotationKey (by simp [builderInputKeys])
  have h8 := hannos IngressAnnotationsKey (by simp [builderInputKeys])
  simp [readOpts, hname, hns, huid, hlabels, hports, h1, h2, h3, h4, h5, h6, h7, h8]

/-- Publication touches only the canonical URL key and the key named by the
exposeHostNameAs annotation. -/
theorem lookupA_publishService (svc : Service) (r : BuildResult) (k : String)
    (hk1 : k ≠ ExposeAnnotationKey)
    (hk2 : ∀ k', lookupA svc.meta.annotations ExposeHostNameAsAnnotationKey = some k' →
      k ≠ k') :
    lookupA (publishService svc r).meta.annotations k =
      lookupA svc.meta.annotations k := by
  unfold publishService pubAnnos
  cases hh : lookupA svc.meta.annotations ExposeHostNameAsAnnotationKey with
  | none =>
    simp only [hh]
    exact findL_setL_ne _ _ _ _ hk1
  | some k' =>
    simp only [hh, lookupA, setA]
    rw [findL_setL_ne _ _ _ _ (hk2 k' hh)]
    exact findL_setL_ne _ _ _ _ hk1

/-- Safe-publication side condition: the secondary publish key, when
configured, collides with neither the builder's input keys nor the
canonical URL key. -/
def SafePublish (svc : Service) : Prop :=
  ∀ k, lookupA svc.meta.annotations ExposeHostNameAsAnnotationKey = some k →
    k ∉ builderInputKeys ∧ k ≠ ExposeAnnotationKey

theorem readOpts_publishService (svc : Service) (r : BuildResult)
    (hsafe : SafePublish svc) :
    readOpts (publishService svc r) = readOpts svc := by
  apply readOpts_annotations_congr <;> try rfl
  intro k hk
  apply lookupA_publishService
  · intro he
    subst he
    exact absurd hk (by decide)
  · intro k' hk' he
    rw [he] at hk
    exact (hsafe k' hk').1 hk

theorem buildIngress_publishService (cfg : Config) (svc : Service)
    (r : BuildResult) (hsafe : SafePublish svc) :
    buildIngress cfg (publishService svc r) = buildIngress cfg svc := by
  unfold buildIngress
  rw [readOpts_publishService svc r hsafe]

theorem service_eta (s : Service) (a : Annos) (h : a = s.meta.annotations) :
    ({ s with meta := { s.meta with annotations := a } } : Service) = s := by
  subst h
  rfl

theorem lookupA_pubAnnos_url (svc : Service) (r : BuildResult)
    (hsafe : SafePublish svc) :
    lookupA (pubAnnos svc r) ExposeAnnotationKey = some r.url := by
  unfold pubAnnos
  cases hh : lookupA svc.meta.annotations ExposeHostNameAsAnnotationKey with
  | none =>
    simp only [hh]
    exact findL_setL_self _ _ _
  | some k =>
    simp only [hh, lookupA, setA]
    rw [findL_setL_ne _ _ _ _ (Ne.symm (hsafe k hh).2)]
    exact findL_setL_self _ _ _

/-- Publishing twice with the same build result changes nothing more. -/
theorem publishService_idem (svc : Service) (r : BuildResult)
    (hsafe : SafePublish svc) :
    publishService (publishService svc r) r = publishService svc r := by
  have hh2 : lookupA (publishService svc r).meta.annotations
      ExposeHostNameAsAnnotationKey =
      lookupA svc.meta.annotations ExposeHostNameAsAnnotationKey := by
    apply lookupA_publishService
    · decide
    · intro k' hk' he
      exact (hsafe k' hk').1 (he ▸ (by decide : ExposeHostNameAsAnnotationKey ∈ builderInputKeys))
  have hurl : lookupA (publishService svc r).meta.annotations ExposeAnnotationKey =
      some r.url := lookupA_pubAnnos_url svc r hsafe
  show ({ publishService svc r with
    meta := { (publishService svc r).meta with
      annotations := pubAnnos (publishService svc r) r } } : Service) =
    publishService svc r
  apply service_eta
  unfold pubAnnos
  rw [hh2]
  cases hh : lookupA svc.meta.annotations ExposeHostNameAsAnnotationKey with
  | none =>
    show setL (publishService svc r).meta.annotations ExposeAnnotationKey r.url =
      (publishService svc r).meta.annotations
    exact setL_eq_of_findL _ _ _ hurl
  | some k =>
    show setL (setL (publishService svc r).meta.annotations
        ExposeAnnotationKey r.url) k r.host =
      (publishService svc r).meta.annotations
    rw [setL_eq_of_findL _ _ _ hurl]
    apply setL_eq_of_findL
    show lookupA (publishService svc r).meta.annotations k = some r.host
    unfold publishService pubAnnos
    simp only [hh]
    exact findL_setL_self _ _ _

/-! ## Add-core structure -/

theorem ingressAddCore_fst (ex : Index) (cl : Cluster) (svc : Service)
    (r : BuildResult) :
    (ingressAddCore ex cl svc r).1 = setL ex (svcKey svc) [r.name] := rfl

theorem ingressAddCore_cluster (ex : Index) (cl : Cluster) (svc : Service)
    (r : BuildResult) :
    (ingressAddCore ex cl svc r).2.1 =
      (publishStep
        (upsertDesired
          (stalePass (svcKey svc) svc.meta.ns
            ((lookupIdx ex (svcKey svc)).filter (fun n => decide (n ≠ r.name))) cl).1
          svc.meta.ns r).1
        svc r).1 := rfl

theorem ingressAddCore_find_desired (ex : Index) (cl : Cluster) (svc : Service)
    (r : BuildResult) (hns : r.ing.meta.ns = svc.meta.ns)
    (hname : r.ing.meta.name = r.name) :
    ∃ i, findIngress (ingressAddCore ex cl svc r).2.1 svc.meta.ns r.name = some i ∧
      mutableEq i r.ing = true := by
  rw [ingressAddCore_cluster]
  obtain ⟨i, hfind, hmu⟩ :=
    upsertDesired_find
      (stalePass (svcKey svc) svc.meta.ns
        ((lookupIdx ex (svcKey svc)).filter (fun n => decide (n ≠ r.name))) cl).1
      svc.meta.ns r hns hname
  refine ⟨i, ?_, hmu⟩
  rw [findIngress_ingresses_congr _ _ _ _ (publishStep_ingresses _ _ _)]
  exact hfind

/-! # Claim theorems -/

/-- C4: in path mode with no path override, for service svc in namespace
main with one port and configured domain example.com, Add's builder
generates host example.com, path "/main/svc/" (the middle segment derived
from the service), and publishes URL "http://example.com/main/svc/". -/
theorem path_mode_generates_namespaced_path_url :
    (buildIngress pathFixCfg pathFixSvc).toOption.map
        (fun r => (r.host, r.path, r.url)) =
      some ("example.com", "/main/svc/", "http://example.com/main/svc/") ∧
    (ingressAdd pathFixCfg [] pathFixCl pathFixSvc).toOption.map
        (fun t => (findService t.2.1 "main" "svc").map
          (fun s => lookupA s.meta.annotations ExposeAnnotationKey)) =
      some (some (some "http://example.com/main/svc/")) := by
  refine ⟨by decide, by decide⟩

/-- C7: for every service whose declared port list has length zero or
greater than one, NodePortStrategy.Add returns an error, issues no cluster
write, and leaves the cluster untouched. -/
theorem nodeport_add_rejects_bad_port_count (s : NodePortState) (cl : Cluster)
    (svc : Service) (h : svc.ports.length ≠ 1) :
    (nodeportAdd s cl svc).2.2.1 = [] ∧
    (nodeportAdd s cl svc).2.2.2.isSome = true ∧
    (nodeportAdd s cl svc).2.1 = cl := by
  unfold nodeportAdd
  by_cases h0 : svc.ports.length = 0
  · simp [h0]
  · have h1 : 1 < svc.ports.length := by omega
    simp [h0, h1]

/-- C7 witness: the zero-port fixture service is rejected without a write. -/
theorem nodeport_add_rejects_bad_port_count_witness :
    npFixSvc.ports.length ≠ 1 ∧
    ((nodeportAdd npFixState { } npFixSvc).2.2.1 = [] ∧
     (nodeportAdd npFixState { } npFixSvc).2.2.2.isSome = true ∧
     (nodeportAdd npFixState { } npFixSvc).2.1 = { }) :=
  ⟨by decide, nodeport_add_rejects_bad_port_count npFixState { } npFixSvc (by decide)⟩

/-- C8: for every service without the published-URL annotation, Clean
issues no patch against the service and leaves the service objects
untouched: the node-port Clean performs no write at all, and the ingress
Clean leaves the cluster's services unchanged and issues only ingress
deletions. -/
theorem clean_without_url_annotation_skips_service_patch
    (s : NodePortState) (cl : Cluster) (svc : Service)
    (ex : Index) (cl' : Cluster) (svc' : Service)
    (h : lookupA svc.meta.annotations ExposeAnnotationKey = none)
    (h' : lookupA svc'.meta.annotations ExposeAnnotationKey = none) :
    ((nodeportClean s cl svc).2.1 = cl ∧ (nodeportClean s cl svc).2.2 = []) ∧
    ((ingressClean ex cl' svc').2.1.services = cl'.services ∧
     ∀ w ∈ (ingressClean ex cl' svc').2.2, isDeleteOp w = true) := by
  have hrem : removeExposeUrl? svc = none := by
    simp [removeExposeUrl?, h]
  have hrem' : removeExposeUrl? svc' = none := by
    simp [removeExposeUrl?, h']
  refine ⟨⟨?_, ?_⟩, ?_, ?_⟩
  · simp [nodeportClean, hrem]
  · simp [nodeportClean, hrem]
  · unfold ingressClean
    simp only [cleanPublish, hrem']
    exact stalePass_services _ _ _ cl'
  · intro w hw
    unfold ingressClean at hw
    simp only [cleanPublish, hrem'] at hw
    rw [List.append_nil] at hw
    exact stalePass_writes _ _ _ cl' w hw

/-- C8 witness: cleaning the annotation-free fixture service ns2/svc2
patches no service under either strategy while still deleting its indexed
ingress. -/
theorem clean_without_url_annotation_skips_service_patch_witness :
    lookupA cleanFixSvc2.meta.annotations ExposeAnnotationKey = none ∧
    (((nodeportClean npFixState cleanFixCl cleanFixSvc2).2.1 = cleanFixCl ∧
      (nodeportClean npFixState cleanFixCl cleanFixSvc2).2.2 = []) ∧
     ((ingressClean cleanFixEx cleanFixCl cleanFixSvc2).2.1.services =
        cleanFixCl.services ∧
      ∀ w ∈ (ingressClean cleanFixEx cleanFixCl cleanFixSvc2).2.2,
        isDeleteOp w = true)) :=
  ⟨by decide,
   clean_without_url_annotation_skips_service_patch npFixState cleanFixCl
     cleanFixSvc2 cleanFixEx cleanFixCl cleanFixSvc2 (by decide) (by decide)⟩

theorem findL_baseAnnos_tlsAcme (cfg : Config) (m : String)
    (hacme : cfg.tlsAcme = true) :
    findL (baseAnnosOf cfg m) tlsAcmeKey = some "true" := by
  unfold baseAnnosOf
  rw [hacme, if_pos rfl]
  apply findL_append_of_none
  by_cases hc : classOf cfg m ≠ "" <;>
    simp [hc, findL, show generatedByKey ≠ tlsAcmeKey by decide,
      show ingressClassKey ≠ tlsAcmeKey by decide,
      show nginxIngressClassKey ≠ tlsAcmeKey by decide]

/-- C10: the merged custom-annotations block can never override the
generated-by marker: every successfully built resource carries the engine's
fixed generated-by value, even though the block does override other
annotations such as the generic ingress-class key (witnessed at the
custom-annotations fixture, whose block assigns both keys). -/
theorem generated_by_marker_not_overridable (cfg : Config) (svc : Service)
    (r : BuildResult) (h : buildIngress cfg svc = .ok r) :
    lookupA r.ing.meta.annotations generatedByKey = some generatedByValue ∧
    (buildIngress annoFixCfg annoFixSvc).toOption.map
        (fun q => (findL q.ing.meta.annotations generatedByKey,
                   findL q.ing.meta.annotations ingressClassKey)) =
      some (some generatedByValue, some "other") := by
  constructor
  · obtain ⟨p, c, hp, hc, hr⟩ := buildIngress_inv cfg svc r h
    subst hr
    exact buildMk_generatedBy cfg (readOpts svc) p c
  · decide

/-- C10 witness: the custom-annotations fixture builds successfully and
the theorem applies to it. -/
theorem generated_by_marker_not_overridable_witness :
    buildIngress annoFixCfg annoFixSvc = .ok annoFixBuild ∧
    lookupA annoFixBuild.ing.meta.annotations generatedByKey =
      some generatedByValue :=
  ⟨by decide,
   (generated_by_marker_not_overridable annoFixCfg annoFixSvc annoFixBuild
     (by decide)).1⟩

/-- C5: for every service built with the TLS-ACME flag and no explicit
secret name (and neither the wildcard flag nor a custom-annotations block
in play), the scheme is https, the published URL uses it, the TLS block's
host list is exactly the rule's host, its secret name is
"tls-" + serviceName, and the annotations carry the TLS-ACME marker. -/
theorem tls_acme_defaults (cfg : Config) (svc : Service) (r : BuildResult)
    (hacme : cfg.tlsAcme = true) (hsec : cfg.tlsSecretName = "")
    (hwild : cfg.tlsUseWildcard = false)
    (hcustom : lookupA svc.meta.annotations IngressAnnotationsKey = none)
    (h : buildIngress cfg svc = .ok r) :
    r.scheme = "https" ∧
    r.url = "https://" ++ r.host ++ r.path ∧
    r.ing.rules.map (fun ru => ru.host) = [r.host] ∧
    r.ing.tls = [{ hosts := [r.host], secretName := "tls-" ++ svc.meta.name }] ∧
    lookupA r.ing.meta.annotations tlsAcmeKey = some "true" := by
  obtain ⟨p, c, hp, hc, hr⟩ := buildIngress_inv cfg svc r h
  have hcb : (readOpts svc).customBlock = none := hcustom
  have hc0 : c = [] := by
    unfold parseCustomOf at hc
    rw [hcb] at hc
    injection hc with hc
    exact hc.symm
  subst hr
  subst hc0
  have hscheme : schemeOf cfg = "https" := by
    simp [schemeOf, hacme]
  refine ⟨hscheme, ?_, ?_, ?_, ?_⟩
  · show schemeOf cfg ++ "://" ++ hostOf cfg (readOpts svc) ++ pathOf cfg (readOpts svc) =
      "https" ++ "://" ++ hostOf cfg (readOpts svc) ++ pathOf cfg (readOpts svc)
    rw [hscheme]
  · rfl
  · show tlsListOf cfg (readOpts svc) = _
    unfold tlsListOf tlsSecretOf
    rw [if_pos (Or.inl hacme), hwild, hsec]
    simp [buildMk, readOpts]
  · show lookupA (setL (mergeCustom [] (baseAnnosOf cfg (effModeOf cfg (readOpts svc))))
        generatedByKey generatedByValue) tlsAcmeKey = some "true"
    unfold lookupA mergeCustom
    rw [List.foldl_nil]
    rw [findL_setL_ne _ _ _ _ (by decide)]
    exact findL_baseAnnos_tlsAcme cfg _ hacme

/-- C5 witness: the TLS-ACME fixture satisfies the hypotheses and the
conclusions. -/
theorem tls_acme_defaults_witness :
    buildIngress acmeFixCfg acmeFixSvc = .ok acmeFixBuild ∧
    (acmeFixBuild.scheme = "https" ∧
     acmeFixBuild.url = "https://" ++ acmeFixBuild.host ++ acmeFixBuild.path ∧
     acmeFixBuild.ing.rules.map (fun ru => ru.host) = [acmeFixBuild.host] ∧
     acmeFixBuild.ing.tls = [{ hosts := [acmeFixBuild.host],
                               secretName := "tls-" ++ acmeFixSvc.meta.name }] ∧
     lookupA acmeFixBuild.ing.meta.annotations tlsAcmeKey = some "true") :=
  ⟨by decide,
   tls_acme_defaults acmeFixCfg acmeFixSvc acmeFixBuild rfl rfl rfl (by decide)
     (by decide)⟩

/-- C6: for every service built with the TLS-wildcard flag (and TLS
enabled), the TLS block's sole host entry is "*." + domain rather than the
rule's literal host, while the rule and the published URL use the literal
host; at the wildcard fixture the two really differ. -/
theorem tls_wildcard_entry (cfg : Config) (svc : Service) (r : BuildResult)
    (hwild : cfg.tlsUseWildcard = true)
    (htls : cfg.tlsAcme = true ∨ cfg.tlsSecretName ≠ "")
    (h : buildIngress cfg svc = .ok r) :
    (r.ing.tls = [{ hosts := ["*." ++ domainOfOpts cfg (readOpts svc)],
                    secretName := tlsSecretOf cfg (readOpts svc) }] ∧
     r.ing.rules.map (fun ru => ru.host) = [r.host] ∧
     r.url = r.scheme ++ "://" ++ r.host ++ r.path) ∧
    ((buildIngress tlsFixCfg tlsFixSvc).toOption.map
        (fun q => (q.ing.tls.map (fun t => t.hosts), q.host, q.url)) =
      some ([["*.my-domain.com"]], "my-domain.com",
            "https://my-domain.com/main/service/") ∧
     ("*.my-domain.com" : String) ≠ "my-domain.com") := by
  refine ⟨?_, by decide, by decide⟩
  obtain ⟨p, c, hp, hc, hr⟩ := buildIngress_inv cfg svc r h
  subst hr
  refine ⟨?_, rfl, rfl⟩
  show tlsListOf cfg (readOpts svc) = _
  unfold tlsListOf
  rw [if_pos htls, hwild]
  simp

/-- C6 witness: the wildcard fixture satisfies the hypotheses and the
conclusions. -/
theorem tls_wildcard_entry_witness :
    buildIngress tlsFixCfg tlsFixSvc = .ok tlsFixBuild ∧
    tlsFixBuild.ing.tls =
      [{ hosts := ["*." ++ domainOfOpts tlsFixCfg (readOpts tlsFixSvc)],
         secretName := tlsSecretOf tlsFixCfg (readOpts tlsFixSvc) }] :=
  ⟨by decide,
   ((tls_wildcard_entry tlsFixCfg tlsFixSvc tlsFixBuild rfl (Or.inr (by decide))
       (by decide)).1).1⟩

theorem data_append (a b : String) : (a ++ b).data = a.data ++ b.data := by
  cases a
  cases b
  rfl

theorem append_slash_ne_empty (a b : String) : a ++ "/" ++ b ≠ "" := by
  intro h
  have h2 : (a ++ "/" ++ b).data = "".data := congrArg String.data h
  rw [data_append, data_append] at h2
  simp at h2

/-- C1: for every routing resource examined by Sync: a marked resource
whose Service owner references do not number exactly one is flagged for
deletion, deleted from the cluster, and any index occurrence of its name
stems from a different resource; a marked resource with exactly one
Service owner is classified as owned by "namespace/ownerName" and its name
is indexed under that key; a resource without the generator marker
survives Sync untouched. -/
theorem sync_ownership_classification (cl : Cluster) (ing : Ingress)
    (hmem : ing ∈ cl.ingresses)
    (hkeys : (cl.ingresses.map ingKey).Nodup) :
    (hasGeneratorMarker ing = true →
      ((serviceOwners ing).length ≠ 1 →
        getIngressService ing = ("", true) ∧
        ing ∉ (ingressSync cl).2.1.ingresses ∧
        (∀ k, ing.meta.name ∈ lookupIdx (ingressSync cl).1 k →
          ∃ other ∈ cl.ingresses, other ≠ ing ∧
            getIngressService other = (k, false) ∧
            other.meta.name = ing.meta.name)) ∧
      (∀ o, serviceOwners ing = [o] →
        getIngressService ing = (ing.meta.ns ++ "/" ++ o.name, false) ∧
        ing.meta.name ∈ lookupIdx (ingressSync cl).1 (ing.meta.ns ++ "/" ++ o.name))) ∧
    (hasGeneratorMarker ing = false →
      ing ∈ (ingressSync cl).2.1.ingresses) := by
  refine ⟨fun hmarker => ⟨fun hlen => ?_, fun o hso => ?_⟩, fun hnm => ?_⟩
  · have hgis : getIngressService ing = ("", true) := by
      cases hso : serviceOwners ing with
      | nil => simp [getIngressService, hmarker, hso]
      | cons o t =>
        cases t with
        | nil => exact absurd (by rw [hso]; rfl) hlen
        | cons o2 t2 => simp [getIngressService, hmarker, hso]
    refine ⟨hgis, ?_, ?_⟩
    · rw [ingressSync_cluster_mem]
      rintro ⟨_, hs⟩
      exact hs ing hmem (by rw [hgis]) ⟨rfl, rfl⟩
    · intro k hk
      rw [ingressSync_index_mem] at hk
      obtain ⟨i, hi, hgi, hkne, hni⟩ := hk
      refine ⟨i, hi, ?_, hgi, hni⟩
      intro heq
      rw [heq, hgis] at hgi
      injection hgi with _ h2
      cases h2
  · have hgis : getIngressService ing = (ing.meta.ns ++ "/" ++ o.name, false) := by
      simp [getIngressService, hmarker, hso]
    refine ⟨hgis, ?_⟩
    rw [ingressSync_index_mem]
    exact ⟨ing, hmem, hgis, append_slash_ne_empty _ _, rfl⟩
  · rw [ingressSync_cluster_mem]
    refine ⟨hmem, ?_⟩
    intro d hd hdel hmatch
    have hdi : d = ing := by
      refine List.inj_on_of_nodup_map hkeys hd hmem ?_
      show (d.meta.ns, d.meta.name) = (ing.meta.ns, ing.meta.name)
      rw [hmatch.1, hmatch.2]
    rw [hdi] at hdel
    rw [show getIngressService ing = ("", false) by
      simp [getIngressService, hnm]] at hdel
    cases hdel

/-- C1 witness: in the Sync fixture, the marked, owner-less resource
ingress3 is deleted by Sync. -/
theorem sync_ownership_classification_witness :
    syncFixAmb ∈ syncFixCl.ingresses ∧
    (syncFixCl.ingresses.map ingKey).Nodup ∧
    hasGeneratorMarker syncFixAmb = true ∧
    (serviceOwners syncFixAmb).length ≠ 1 ∧
    syncFixAmb ∉ (ingressSync syncFixCl).2.1.ingresses :=
  ⟨by decide, by decide, by decide, by decide,
   (((sync_ownership_classification syncFixCl syncFixAmb (by decide)
       (by decide)).1 (by decide)).1 (by decide)).2.1⟩

theorem ingressClean_fst (ex : Index) (cl : Cluster) (svc : Service) :
    (ingressClean ex cl svc).1 = eraseL ex (svcKey svc) := rfl

theorem ingressClean_cluster (ex : Index) (cl : Cluster) (svc : Service) :
    (ingressClean ex cl svc).2.1 =
      (cleanPublish
        (stalePass (svcKey svc) svc.meta.ns (lookupIdx ex (svcKey svc)) cl).1
        svc).1 := rfl

/-- C2 counterexample: in the Add fixture, the indexed name ingress2
differs from the desired name "source", yet Add leaves that resource in
the cluster, because it no longer carries the generator marker. -/
theorem add_reaps_every_stale_name_cex :
    "ingress2" ∈ lookupIdx addFixEx (svcKey addFixSvc) ∧
    buildIngress addFixCfg addFixSvc = .ok addFixBuild ∧
    addFixBuild.name = "source" ∧
    ingressAdd addFixCfg addFixEx addFixCl addFixSvc = .ok addFixRes ∧
    (findIngress addFixRes.2.1 "main" "ingress2").isSome = true := by
  decide

/-- C2 (amended): after a successful Add, the index entry for the
service's key contains exactly the desired name (so every other indexed
name is removed from the index); an indexed name that differs from the
desired name is deleted from the cluster precisely under the ownership
guard — the resource still exists and its classification either flags it
for deletion or attributes it to this service's key. -/
theorem add_rename_cleanup_guarded (cfg : Config) (ex : Index) (cl : Cluster)
    (svc : Service) (ex' : Index) (cl' : Cluster) (ws : List WriteOp)
    (r : BuildResult)
    (hb : buildIngress cfg svc = .ok r)
    (hadd : ingressAdd cfg ex cl svc = .ok (ex', cl', ws)) :
    lookupIdx ex' (svcKey svc) = [r.name] ∧
    (∀ n ∈ lookupIdx ex (svcKey svc), n ≠ r.name →
      ∀ ing, findIngress cl svc.meta.ns n = some ing →
        ((getIngressService ing).2 = true ∨
         (getIngressService ing).1 = svcKey svc) →
        findIngress cl' svc.meta.ns n = none) := by
  unfold ingressAdd at hadd
  rw [hb] at hadd
  injection hadd with hadd
  have hex : setL ex (svcKey svc) [r.name] = ex' := by
    rw [← ingressAddCore_fst ex cl svc r, hadd]
  have hcl : (ingressAddCore ex cl svc r).2.1 = cl' := by rw [hadd]
  obtain ⟨p, c, hp, hc, hr⟩ := buildIngress_inv cfg svc r hb
  have hns : r.ing.meta.ns = svc.meta.ns := by rw [hr]; rfl
  have hname : r.ing.meta.name = r.name := by rw [hr]; rfl
  constructor
  · rw [← hex, lookupIdx_setL_self]
  · intro n hn hne ing hfind hguard
    rw [← hcl, ingressAddCore_cluster]
    rw [findIngress_ingresses_congr _ _ _ _ (publishStep_ingresses _ _ _)]
    rw [upsertDesired_find_other _ _ _ hns hname _ _
      (by rintro ⟨_, h2⟩; exact hne h2)]
    apply stalePass_deletes _ _ _ _ _ ing _ hfind hguard
    rw [List.mem_filter]
    exact ⟨hn, by simpa using hne⟩

/-- C2 witness: in the Add fixture, the stale indexed name ingress1 (still
marked and owned by main/source) is deleted from the cluster, and the
index entry afterwards is exactly the desired name. -/
theorem add_rename_cleanup_guarded_witness :
    buildIngress addFixCfg addFixSvc = .ok addFixBuild ∧
    ingressAdd addFixCfg addFixEx addFixCl addFixSvc = .ok addFixRes ∧
    lookupIdx addFixRes.1 (svcKey addFixSvc) = [addFixBuild.name] ∧
    findIngress addFixRes.2.1 "main" "ingress1" = none :=
  ⟨by decide, by decide,
   (add_rename_cleanup_guarded addFixCfg addFixEx addFixCl addFixSvc
     addFixRes.1 addFixRes.2.1 addFixRes.2.2 addFixBuild (by decide)
     (by decide)).1,
   (add_rename_cleanup_guarded addFixCfg addFixEx addFixCl addFixSvc
     addFixRes.1 addFixRes.2.1 addFixRes.2.2 addFixBuild (by decide)
     (by decide)).2 "ingress1" (by decide) (by decide) addFixIng1 (by decide)
     (by decide)⟩

/-- C9 counterexample: in the Clean fixture, ingress2 is indexed under
ns1/svc1 but owned by a different service, and Clean leaves it in the
cluster, so Clean does not delete every resource indexed under the key. -/
theorem clean_deletes_every_indexed_cex :
    "ingress2" ∈ lookupIdx cleanFixEx (svcKey cleanFixSvc1) ∧
    (findIngress cleanFixRes.2.1 "ns1" "ingress2").isSome = true := by
  decide

/-- C9 (amended): Clean removes the service's key from the index entirely
(never leaving an empty entry), deletes every indexed resource that still
exists and whose ownership classification flags it for deletion or
attributes it to this key, leaves resources outside the indexed set
untouched, and removes the published-URL annotation from the service when
it was present. -/
theorem clean_guarded_deletion_spec (ex : Index) (cl : Cluster) (svc : Service) :
    (∀ q ∈ (ingressClean ex cl svc).1, q.1 ≠ svcKey svc) ∧
    (∀ n ∈ lookupIdx ex (svcKey svc), ∀ ing,
      findIngress cl svc.meta.ns n = some ing →
      ((getIngressService ing).2 = true ∨
       (getIngressService ing).1 = svcKey svc) →
      findIngress (ingressClean ex cl svc).2.1 svc.meta.ns n = none) ∧
    (∀ i ∈ cl.ingresses,
      i.meta.ns ≠ svc.meta.ns ∨ i.meta.name ∉ lookupIdx ex (svcKey svc) →
      i ∈ (ingressClean ex cl svc).2.1.ingresses) ∧
    (∀ v, lookupA svc.meta.annotations ExposeAnnotationKey = some v →
      findService (ingressClean ex cl svc).2.1 svc.meta.ns svc.meta.name =
        some { svc with meta := { svc.meta with
          annotations := eraseA svc.meta.annotations ExposeAnnotationKey } } ∧
      lookupA (eraseA svc.meta.annotations ExposeAnnotationKey)
        ExposeAnnotationKey = none) := by
  refine ⟨?_, ?_, ?_, ?_⟩
  · rw [ingressClean_fst]
    exact eraseL_keys ex (svcKey svc)
  · intro n hn ing hfind hguard
    rw [ingressClean_cluster]
    rw [findIngress_ingresses_congr _ _ _ _ (cleanPublish_ingresses _ _)]
    exact stalePass_deletes _ _ _ _ _ ing hn hfind hguard
  · intro i hi hcond
    rw [ingressClean_cluster]
    rw [show ((cleanPublish
        (stalePass (svcKey svc) svc.meta.ns (lookupIdx ex (svcKey svc)) cl).1
        svc).1).ingresses =
      ((stalePass (svcKey svc) svc.meta.ns (lookupIdx ex (svcKey svc)) cl).1).ingresses
      from cleanPublish_ingresses _ _]
    exact stalePass_keeps _ _ _ cl i hi hcond
  · intro v hv
    have hrem : removeExposeUrl? svc =
        some { svc with meta := { svc.meta with
          annotations := eraseA svc.meta.annotations ExposeAnnotationKey } } := by
      unfold removeExposeUrl?
      rw [hv]
      rfl
    constructor
    · rw [ingressClean_cluster]
      unfold cleanPublish
      rw [hrem]
      exact findSvcList_put_self _ _
    · exact findL_eraseL_self _ _

/-- C9 witness: in the Clean fixture, the key ns1/svc1 is gone from the
index, the owned indexed resource ingress1 is deleted, and the service is
stored with the published-URL annotation removed. -/
theorem clean_guarded_deletion_spec_witness :
    "ingress1" ∈ lookupIdx cleanFixEx (svcKey cleanFixSvc1) ∧
    lookupA cleanFixSvc1.meta.annotations ExposeAnnotationKey = some "url" ∧
    findIngress (ingressClean cleanFixEx cleanFixCl cleanFixSvc1).2.1
      "ns1" "ingress1" = none ∧
    (∀ q ∈ (ingressClean cleanFixEx cleanFixCl cleanFixSvc1).1,
      q.1 ≠ svcKey cleanFixSvc1) :=
  ⟨by decide, by decide,
   (clean_guarded_deletion_spec cleanFixEx cleanFixCl cleanFixSvc1).2.1
     "ingress1" (by decide) cleanFixIng1 (by decide) (by decide),
   (clean_guarded_deletion_spec cleanFixEx cleanFixCl cleanFixSvc1).1⟩

/-- C3 counterexample: Add is not idempotent for every service. For the
self-referential fixture — whose exposeHostNameAs annotation names the
host-override key the builder reads — a second Add on the exact state and
service left by the first successful Add still issues cluster writes (the
published host feeds back into the next build). -/
theorem add_idempotent_cex :
    ingressAdd collideFixCfg [] { services := [collideFixSvc] } collideFixSvc =
      .ok collideFixFirst ∧
    collideFixSecond =
      ingressAdd collideFixCfg collideFixFirst.1 collideFixFirst.2.1
        (publishService collideFixSvc collideFixBuild) ∧
    collideFixSecond.toOption.map (fun t => t.2.2.isEmpty) = some false := by
  refine ⟨by decide, rfl, by decide⟩

/-- C3 (amended): Add is idempotent for every safely-configured service:
when the secondary publish key does not collide with the builder's input
keys or the canonical URL key, a second Add invoked on the index, cluster
and service state left by the first successful Add computes an empty diff
everywhere and issues no write, leaving index and cluster exactly as
observed. -/
theorem add_idempotent_safe_publish (cfg : Config) (ex : Index) (cl : Cluster)
    (svc : Service) (ex' : Index) (cl' : Cluster) (ws : List WriteOp)
    (r : BuildResult)
    (hb : buildIngress cfg svc = .ok r)
    (hadd : ingressAdd cfg ex cl svc = .ok (ex', cl', ws))
    (hsafe : SafePublish svc) :
    ingressAdd cfg ex' cl' (publishService svc r) = .ok (ex', cl', []) := by
  unfold ingressAdd at hadd
  rw [hb] at hadd
  injection hadd with hadd
  have hex : setL ex (svcKey svc) [r.name] = ex' := by
    rw [← ingressAddCore_fst ex cl svc r, hadd]
  have hcl : (ingressAddCore ex cl svc r).2.1 = cl' := by rw [hadd]
  obtain ⟨p, c, hp, hc, hr⟩ := buildIngress_inv cfg svc r hb
  have hns : r.ing.meta.ns = svc.meta.ns := by rw [hr]; rfl
  have hname : r.ing.meta.name = r.name := by rw [hr]; rfl
  obtain ⟨i, hfind, hmu⟩ := ingressAddCore_find_desired ex cl svc r hns hname
  rw [hcl] at hfind
  have hb2 : buildIngress cfg (publishService svc r) = .ok r := by
    rw [buildIngress_publishService cfg svc r hsafe]
    exact hb
  unfold ingressAdd
  rw [hb2]
  refine congrArg Except.ok ?_
  unfold ingressAddCore
  dsimp only
  rw [show svcKey (publishService svc r) = svcKey svc from rfl]
  rw [show (publishService svc r).meta.ns = svc.meta.ns from rfl]
  rw [← hex, lookupIdx_setL_self]
  rw [show (([r.name] : List String).filter (fun n => decide (n ≠ r.name))) =
        ([] : List String) from by simp]
  rw [show stalePass (svcKey svc) svc.meta.ns [] cl' = (cl', []) from rfl]
  have hupsert : upsertDesired cl' svc.meta.ns r = (cl', []) := by
    unfold upsertDesired
    rw [hfind]
    simp [hmu]
  rw [hupsert]
  have hpub : publishStep cl' (publishService svc r) r = (cl', []) := by
    unfold publishStep
    rw [publishService_idem svc r hsafe, if_pos rfl]
  rw [hpub]
  rw [setL_setL_self]
  rw [hex]
  rfl

/-- C3 witness: for the update-fixture service (no secondary publish key),
the second Add on the state left by the first issues no write. -/
theorem add_idempotent_safe_publish_witness :
    buildIngress updFixCfg updFixSvc = .ok updFixBuild ∧
    ingressAdd updFixCfg [] updFixCl updFixSvc = .ok updFixRes ∧
    ingressAdd updFixCfg updFixRes.1 updFixRes.2.1
      (publishService updFixSvc updFixBuild) =
      .ok (updFixRes.1, updFixRes.2.1, []) :=
  ⟨by decide, by decide,
   add_idempotent_safe_publish updFixCfg [] updFixCl updFixSvc updFixRes.1
     updFixRes.2.1 updFixRes.2.2 updFixBuild (by decide) (by decide)
     (by
       intro k hk
       rw [show lookupA updFixSvc.meta.annotations ExposeHostNameAsAnnotationKey =
             none from by decide] at hk
       cases hk)⟩

end ExposeController
